import Mathlib

/-!
Verification of the asset-path rewriting and renaming pipeline of the
`app-dashboard` repository (`scripts/organize-public-assets.py`,
`scripts/organize-images.py`, `scripts/apply-image-mapping.py`,
`scripts/migrate-assets.py`, `scripts/update-image-references.py`,
`scripts/update-asset-references.py`, `scripts/convert-images-to-webp.py`).

The Python scripts are embedded shallowly: strings are `List Char` wrapped in
`String`, the filesystem is an association list from path to file content,
and each regex-based rewrite is implemented as an explicit left-to-right
scanner matching the exact semantics of the corresponding Python pattern.
-/

set_option maxRecDepth 4000

namespace Pipeline

/-! ## Basic string machinery (Python semantics on ASCII data) -/

/-- Python `\s` on the ASCII range: space, tab, newline, carriage return,
vertical tab, form feed. -/
def pyIsSpace (c : Char) : Bool :=
  c = ' ' || c = '\t' || c = '\n' || c = '\x0d' || c = '\x0b' || c = '\x0c'

/-- Lowercase-hex character class `[a-f0-9]` used by the hash-strip regexes. -/
def isHexLower (c : Char) : Bool :=
  c.isDigit || ('a' ≤ c && c ≤ 'f')

/-- ASCII letter, the `[a-zA-Z]` class. -/
def isAlphaAscii (c : Char) : Bool :=
  ('a' ≤ c && c ≤ 'z') || ('A' ≤ c && c ≤ 'Z')

/-- Python `\w`: ASCII letter, digit, or underscore (inputs here are ASCII). -/
def isWordChar (c : Char) : Bool :=
  isAlphaAscii c || c.isDigit || c = '_'

/-- Decide whether `p` is a prefix of `s` (character lists). -/
def startsList (p s : List Char) : Bool :=
  List.isPrefixOf p s

/-- Decide whether `p` is a suffix of `s`. -/
def endsList (p s : List Char) : Bool :=
  startsList p.reverse s.reverse

/-- Substring containment, Python's `needle in hay`. -/
def containsSub (needle : List Char) : List Char → Bool
  | [] => startsList needle []
  | c :: cs => startsList needle (c :: cs) || containsSub needle cs

/-- Case-insensitive prefix test (both sides lowered). -/
def startsListCI (p s : List Char) : Bool :=
  startsList (p.map Char.toLower) (s.map Char.toLower)

/-- Case-insensitive substring containment. -/
def containsSubCI (needle hay : List Char) : Bool :=
  containsSub (needle.map Char.toLower) (hay.map Char.toLower)

/-- Python `str.split(sep)` for a one-character separator: keeps empty pieces. -/
def splitOnChar (sep : Char) : List Char → List (List Char)
  | [] => [[]]
  | c :: cs =>
    let rest := splitOnChar sep cs
    if c = sep then [] :: rest
    else match rest with
      | [] => [[c]]
      | r :: rs => (c :: r) :: rs

/-- Python `str.strip()` (whitespace from both ends). -/
def stripWs (s : List Char) : List Char :=
  ((s.dropWhile (fun c => pyIsSpace c)).reverse.dropWhile (fun c => pyIsSpace c)).reverse

/-- Python `str.strip('-')`. -/
def stripHyphens (s : List Char) : List Char :=
  ((s.dropWhile (fun c => c = '-')).reverse.dropWhile (fun c => c = '-')).reverse

/-- Python `str.isdigit()` on ASCII data: nonempty and all digits. -/
def pyIsDigitStr (s : List Char) : Bool :=
  !s.isEmpty && s.all (·.isDigit)

/-- Python `str.join`: interleave `sep` between the pieces. -/
def joinWith (sep : List Char) : List (List Char) → List Char
  | [] => []
  | [p] => p
  | p :: ps => p ++ sep ++ joinWith sep ps

/-- Python `str.replace(old, new)` with nonempty `old`: replace all
non-overlapping occurrences, scanning left to right.  The `fuel` argument
makes the recursion structural; it only needs to be at least the input
length (each step consumes at least one character), and every caller passes
the length. -/
def strReplaceF (old new : List Char) : Nat → List Char → List Char
  | _, [] => []
  | 0, s => s
  | fuel + 1, c :: cs =>
    if startsList old (c :: cs) && !old.isEmpty then
      new ++ strReplaceF old new fuel (List.drop old.length (c :: cs))
    else
      c :: strReplaceF old new fuel cs

/-- Python `str.replace(old, new)`. -/
def strReplace (old new s : List Char) : List Char :=
  strReplaceF old new s.length s

/-- Name of a POSIX pure path (`pathlib.PurePath.name`): the last nonempty
slash-separated component, or empty if there is none. -/
def pathName (s : List Char) : List Char :=
  match (splitOnChar '/' s).filter (fun p => !p.isEmpty) with
  | [] => []
  | ps => ps.getLastD []

/-- Index of the last `.` in a file name, following CPython's rule for
`PurePath.suffix` and `PurePath.stem`: a split happens only when the last dot
sits strictly inside the name (index `0 < i < len - 1`). -/
def dotSplitIndex (name : List Char) : Option Nat :=
  let afterRev := name.reverse.takeWhile (fun c => c ≠ '.')
  if afterRev.length = name.length then none
  else
    let i := name.length - afterRev.length - 1
    if 0 < i ∧ i < name.length - 1 then some i else none

/-- File extension of a name (`pathlib.PurePath.suffix` on the final
component). -/
def pathSuffixOf (s : List Char) : List Char :=
  let name := pathName s
  match dotSplitIndex name with
  | some i => name.drop i
  | none => []

/-- File stem of a name (`pathlib.PurePath.stem` on the final component). -/
def pathStemOf (s : List Char) : List Char :=
  let name := pathName s
  match dotSplitIndex name with
  | some i => name.take i
  | none => name

/-- Lowercasing, Python `str.lower()` on ASCII data. -/
def lowerList (s : List Char) : List Char :=
  s.map Char.toLower

/-! ## Generic deleting substitution (`re.sub(pattern, '', s)`)

A matcher reports how many characters a (deterministic, maximal-munch)
pattern consumes at the current position, or `none`.  `subDel` is Python's
`re.sub` with empty replacement: scan left to right, delete each match,
resume after it. -/

def subDelF (m : List Char → Option Nat) : Nat → List Char → List Char
  | _, [] => []
  | 0, s => s
  | fuel + 1, c :: cs =>
    match m (c :: cs) with
    | some n =>
      if n = 0 then c :: subDelF m fuel cs
      else subDelF m fuel (List.drop n (c :: cs))
    | none => c :: subDelF m fuel cs

/-- Deleting substitution, with fuel instantiated to the input length. -/
def subDel (m : List Char → Option Nat) (s : List Char) : List Char :=
  subDelF m s.length s

/-- Matcher for `\(\d+\)` at the current position. -/
def matchParenNum (s : List Char) : Option Nat :=
  match s with
  | '(' :: rest =>
    let d := rest.takeWhile (·.isDigit)
    if d.length > 0 && startsList [')'] (rest.drop d.length) then
      some (d.length + 2)
    else none
  | _ => none

/-- Matcher for `Untitled\s*\(\d+\)` (source: `organize-public-assets.py`
line 133). -/
def matchUntitledParen (s : List Char) : Option Nat :=
  if startsList "Untitled".data s then
    let rest := s.drop 8
    let w := rest.takeWhile (fun c => pyIsSpace c)
    match matchParenNum (rest.drop w.length) with
    | some k => some (8 + w.length + k)
    | none => none
  else none

/-- Matcher for `Untitled\s*\d+` (line 134). -/
def matchUntitledNum (s : List Char) : Option Nat :=
  if startsList "Untitled".data s then
    let rest := s.drop 8
    let w := rest.takeWhile (fun c => pyIsSpace c)
    let d := (rest.drop w.length).takeWhile (·.isDigit)
    if d.length > 0 then some (8 + w.length + d.length) else none
  else none

/-- Matcher for `\s*\(\d+\)` (line 137). -/
def matchWsParenNum (s : List Char) : Option Nat :=
  let w := s.takeWhile (fun c => pyIsSpace c)
  match matchParenNum (s.drop w.length) with
  | some k => some (w.length + k)
  | none => none

/-- Matcher for `-p-\d+` (line 140). -/
def matchSizeSuffix (s : List Char) : Option Nat :=
  if startsList "-p-".data s then
    let d := (s.drop 3).takeWhile (·.isDigit)
    if d.length > 0 then some (3 + d.length) else none
  else none

/-- All maximal runs of ASCII letters, in order (`re.findall(r'[a-zA-Z]{2,}')`
keeps those of length at least 2). -/
def alphaRunsF : Nat → List Char → List (List Char)
  | _, [] => []
  | 0, _ => []
  | fuel + 1, c :: cs =>
    if isAlphaAscii c then
      let r := cs.takeWhile (fun d => isAlphaAscii d)
      (c :: r) :: alphaRunsF fuel (cs.drop r.length)
    else alphaRunsF fuel cs

/-- All maximal ASCII-letter runs, fuel at the input length. -/
def alphaRuns (s : List Char) : List (List Char) :=
  alphaRunsF s.length s

/-- Collapse each whitespace run to a single hyphen
(`re.sub(r'\s+', '-', s)`). -/
def wsToHyphenF : Nat → List Char → List Char
  | _, [] => []
  | 0, s => s
  | fuel + 1, c :: cs =>
    if pyIsSpace c then '-' :: wsToHyphenF fuel (cs.dropWhile (fun d => pyIsSpace d))
    else c :: wsToHyphenF fuel cs

/-- Collapse whitespace runs to hyphens, fuel at the input length. -/
def wsToHyphen (s : List Char) : List Char :=
  wsToHyphenF s.length s

/-- Collapse each hyphen run to a single hyphen (`re.sub(r'-+', '-', s)`). -/
def hyphenCollapseF : Nat → List Char → List Char
  | _, [] => []
  | 0, s => s
  | fuel + 1, c :: cs =>
    if c = '-' then '-' :: hyphenCollapseF fuel (cs.dropWhile (fun d => d = '-'))
    else c :: hyphenCollapseF fuel cs

/-- Collapse hyphen runs, fuel at the input length. -/
def hyphenCollapse (s : List Char) : List Char :=
  hyphenCollapseF s.length s

/-! ## Planner: `scripts/organize-public-assets.py` -/

/-- Strip a 24-hex-character hash prefix followed by an underscore
(`re.sub(r'^[a-f0-9]{24}_', '', filename)`, anchored so at most one
removal). -/
def stripHash (s : List Char) : List Char :=
  if (s.take 24).length = 24 && (s.take 24).all (fun c => isHexLower c)
      && startsList ['_'] (s.drop 24) then
    s.drop 25
  else s

/-- Characters kept by `re.sub(r'[^\w\-\.]', '', s)`. -/
def keepChar (c : Char) : Bool :=
  isWordChar c || c = '-' || c = '.'

/-- Port of `clean_filename(filename, original_filename)`
(`organize-public-assets.py` lines 115-174).  Both call sites pass the
original name as the second argument. -/
def cleanFilename (filename original : List Char) : List Char :=
  let ext := pathSuffixOf filename
  let f1 := stripHash filename
  let meaningful1 :=
    if containsSub ['_'] f1 then
      (splitOnChar '_' f1).filter (fun p => p.length > 2 && !pyIsDigitStr p)
    else []
  let f2 := subDel matchUntitledParen f1
  let f3 := subDel matchUntitledNum f2
  let f4 := subDel matchWsParenNum f3
  let f5 := subDel matchSizeSuffix f4
  let words := (alphaRuns f5).filter (fun r => r.length ≥ 2)
  let meaningful := meaningful1 ++ words
  let f6 := wsToHyphen f5
  let f7 := f6.filter (fun c => keepChar c)
  let f8 := hyphenCollapse f7
  let f9 := stripHyphens f8
  let f10 := lowerList f9
  let extLower := lowerList ext
  let f11 :=
    if f10.isEmpty || f10 = extLower then
      if !meaningful.isEmpty then joinWith ['-'] (meaningful.take 3)
      else
        let h8 := original.take 8
        if h8.length = 8 && h8.all (fun c => isHexLower c) then
          "file-".data ++ h8
        else "file".data
    else f10
  if endsList extLower f11 then f11 else f11 ++ extLower

/-- The `KNOWN_NAMES` lookup table (lines 50-64). -/
def knownNames : List (String × String) :=
  [("642aa9b6129f71848c627af5_favicon.jpg", "favicon.jpg"),
   ("642aa9ba69d01ce76135f2d0_retina.jpg", "apple-touch-icon.jpg"),
   ("64823ad1f11f6a5ee085b6c1_Vectors-Wrapper.svg", "logo-vectors-wrapper.svg"),
   ("64823ad2f11f6a5ee085b6d9_Vectors-Wrapper.svg", "logo-vectors-wrapper-alt.svg"),
   ("64a93447a4d8d06ce540f5fc_wells-fargo.svg", "logo-wells-fargo.svg"),
   ("657cb98d8f25b29d4ddda87a_usdbrl_cur (1).svg", "currency-usdbrl.svg"),
   ("66fa20663b706c601554155b_og-image-jng.jpg", "og-image.jpg"),
   ("67563aa17278edf4cf79c3cb_logo-small_white.svg", "logo-small-white.svg"),
   ("68838c5bc52c45d16d1c8bec_logo-techfx 1.svg", "logo-techfx.svg"),
   ("jobnagringa.webflow.shared.aca489c6b.min.css", "webflow-shared.min.css"),
   ("webflow.d94da6a8.ea62f8e5992eb517.js", "webflow-main.js"),
   ("webflow.schunk.59c6248219f37ae8.js", "webflow-chunk-1.js"),
   ("webflow.schunk.85d4c368d7c8f770.js", "webflow-chunk-2.js")]

/-- The `FILE_CATEGORIES` keyword table (lines 33-47), in source order. -/
def fileCategories : List (String × List String) :=
  [("favicon", ["favicon", "retina"]),
   ("logo", ["logo", "brand", "wells-fargo", "higlobe", "revelo", "braintrust",
             "cambly", "vanhack", "strider", "mercord", "flatirons", "techfx",
             "adaflow", "langate", "planner", "very-good-ventures", "yougov",
             "axonius", "webfxinc", "mobiz", "propel", "bwisemedia", "intersec",
             "decentralized", "itscout", "pix4d", "airalocom", "truelogic",
             "whiz1", "brokerkit", "open-english", "vicarius", "goto",
             "onfleet", "thales", "partner"]),
   ("icon", ["icon", "x-icon", "linkedin", "google", "bing", "duckduckgo",
             "yahoo"]),
   ("screenshot", ["screenshot", "untitled", "image", "frame"]),
   ("graphic", ["vector", "wrapper", "mesh", "gemini", "currency", "usdbrl"]),
   ("photo", ["husky", "channels4", "profile"]),
   ("css", ["css"]),
   ("js", ["js", "webflow"])]

/-- The per-category return value of the `if/elif` chain in `categorize_file`
(lines 85-100): each keyword category is mapped to its plural directory
label. -/
def pluralizeCategory (cat : String) : String :=
  if cat = "favicon" then "favicons"
  else if cat = "logo" then "logos"
  else if cat = "icon" then "icons"
  else if cat = "screenshot" then "screenshots"
  else if cat = "graphic" then "graphics"
  else if cat = "photo" then "photos"
  else if cat = "css" then "css"
  else "js"

/-- Keyword scan and extension fallback of `categorize_file`
(lines 83-113). -/
def categorizeRest (filenameLower : List Char) (filename : String) :
    String × Option String :=
  match fileCategories.find? (fun p =>
      p.2.any (fun kw => containsSub kw.data filenameLower)) with
  | some p => (pluralizeCategory p.1, none)
  | none =>
    let ext := lowerList (pathSuffixOf filename.data)
    if ext = ".css".data then ("css", none)
    else if ext = ".js".data then ("js", none)
    else if ext = ".svg".data then ("icons", none)
    else if ext = ".jpg".data || ext = ".jpeg".data || ext = ".png".data
        || ext = ".avif".data || ext = ".webp".data || ext = ".gif".data then
      ("graphics", none)
    else ("other", none)

/-- Port of `categorize_file(filename)` (lines 66-113).  Returns the category
and, for known names with a recognized substring, the curated new name. -/
def categorizeFile (filename : String) : String × Option String :=
  let filenameLower := lowerList filename.data
  match knownNames.lookup filename with
  | some newName =>
    if containsSub "favicon".data newName.data
        || containsSub "apple-touch".data newName.data then
      ("favicons", some newName)
    else if containsSub "logo".data newName.data then ("logos", some newName)
    else if containsSub "icon".data newName.data then ("icons", some newName)
    else if containsSub "og-image".data newName.data then
      ("graphics", some newName)
    else categorizeRest filenameLower filename
  | none => categorizeRest filenameLower filename

/-- Port of `generate_new_name(old_name, category)` (lines 176-202). -/
def generateNewName (oldName : String) (category : String) : String :=
  match knownNames.lookup oldName with
  | some n => n
  | none =>
    let cleaned := cleanFilename oldName.data oldName.data
    let ext := pathSuffixOf cleaned
    let base := pathStemOf cleaned
    let base2 :=
      if category = "logos" && !startsList "logo-".data base then
        "logo-".data ++ base
      else if category = "icons" && !startsList "icon-".data base then
        if !(["linkedin", "google", "bing", "x", "yahoo", "duckduckgo"].any
            (fun x => containsSub x.data base)) then
          "icon-".data ++ base
        else base
      else if category = "screenshots" && !startsList "screenshot-".data base then
        "screenshot-".data ++ base
      else if category = "graphics" && !startsList "graphic-".data base then
        if !(["og-image", "mesh", "vector", "currency"].any
            (fun x => containsSub x.data base)) then
          "graphic-".data ++ base
        else base
      else base
    String.mk (base2 ++ ext)

/-- The `NEW_STRUCTURE` directory table (lines 20-30). -/
def newStructure : List (String × String) :=
  [("favicons", "favicons"), ("logos", "images/logos"),
   ("icons", "images/icons"), ("screenshots", "images/screenshots"),
   ("graphics", "images/graphics"), ("photos", "images/photos"),
   ("css", "styles"), ("js", "scripts"), ("other", "misc")]

/-- One physical file handed to `organize_files` by `scan_files`: its
`files_map` key (`rel_path`), absolute `old_path`, and file `name`. -/
structure FileItem where
  relPath : String
  oldPath : String
  name : String
deriving DecidableEq, Repr

/-- One value of the persisted `asset-migration-map.json` document
(lines 278-285). -/
structure MapEntry where
  oldPath : String
  oldName : String
  newPath : String
  newName : String
  category : String
  newDir : String
deriving DecidableEq, Repr

/-- Read a `defaultdict(int)` counter. -/
def countGet (l : List (String × Nat)) (k : String) : Nat :=
  (l.lookup k).getD 0

/-- Write a counter entry (overwrite or append). -/
def countSet (l : List (String × Nat)) (k : String) (v : Nat) :
    List (String × Nat) :=
  match l with
  | [] => [(k, v)]
  | (a, b) :: t => if a = k then (k, v) :: t else (a, b) :: countSet t k v

/-- The naming loop of `organize_files` (lines 255-285), processed in
`files_map` insertion order.  On a collision of `new_name` with an already
assigned name, a numeric suffix taken from the per-category counter is
appended — without rechecking the suffixed name. -/
def organizeGo (acc : List (String × MapEntry)) (counts : List (String × Nat)) :
    List FileItem → List (String × MapEntry)
  | [] => acc
  | it :: rest =>
    let c := categorizeFile it.name
    let category := c.1
    let newName0 := match c.2 with
      | some n => n
      | none => generateNewName it.name category
    let existing := acc.map (fun e => e.2.newName)
    let counter := countGet counts category
    let step :=
      if existing.contains newName0 then
        (String.mk (pathStemOf newName0.data ++ "-".data
            ++ (toString counter).data ++ pathSuffixOf newName0.data),
         countSet counts category (counter + 1))
      else (newName0, countSet counts category (counter + 1))
    let newName := step.1
    let newDir := (newStructure.lookup category).getD "misc"
    let newPath := "cdn-assets/" ++ newDir ++ "/" ++ newName
    organizeGo
      (acc ++ [(it.relPath,
        { oldPath := it.oldPath, oldName := it.name, newPath := newPath,
          newName := newName, category := category, newDir := newDir })])
      step.2 rest

/-- Port of the planning part of `organize_files` (lines 244-297): map each
scanned file to its migration-map entry.  The resulting association list is
what gets persisted to `asset-migration-map.json`. -/
def organizeFiles (items : List FileItem) : List (String × MapEntry) :=
  organizeGo [] [] items

/-! ## Filesystem model

Files only: an association list from path to file content.  Directories are
modelled separately where a claim needs them (`migrate-assets.py` cleanup).
`shutil.move` with an existing plain-file destination on one POSIX
filesystem resolves to `os.rename`, which silently replaces the
destination; the model mirrors that. -/

/-- One file tree: path to content, no duplicate paths intended. -/
abbrev Fs := List (String × String)

/-- Content at a path (`Path.exists` + read). -/
def fsLookup (fs : Fs) (p : String) : Option String :=
  fs.lookup p

/-- Remove a path. -/
def fsErase (fs : Fs) (p : String) : Fs :=
  fs.filter (fun e => !(e.1 == p))

/-- Write a file, replacing any previous content at that path. -/
def fsSet (fs : Fs) (p c : String) : Fs :=
  fsErase fs p ++ [(p, c)]

/-- Move a file whose content is `c` from `oldP` to `newP`, overwriting any
existing destination (`shutil.move` on one filesystem). -/
def fsMove (fs : Fs) (oldP newP c : String) : Fs :=
  fsSet (fsErase fs oldP) newP c

/-! ## Applier move pass: `scripts/apply-image-mapping.py`

`main` (lines 14-80) loads `image-mapping.json`, creates target directories,
then for each entry `(old_relative, item)` moves
`CDN_ASSETS/old_relative` to `CDN_ASSETS/item["new_relative"]`.  Paths in
the model are the cdn-assets-relative strings; the filesystem is the
cdn-assets tree.  Directory creation only affects directories, which this
claim set never inspects for this script, so it is not represented. -/

/-- Outcome of the move loop: final tree and the printed summary counters. -/
structure ApplyResult where
  fs : Fs
  moved : Nat
  skipped : Nat
  errors : List String
deriving DecidableEq, Repr

/-- One iteration of the move loop (lines 43-70): missing source records an
error and is skipped; an entry whose old and new path coincide is skipped;
otherwise the file is moved (`shutil.move`), overwriting any existing
destination. -/
def applyStep (r : ApplyResult) (e : String × String) : ApplyResult :=
  match fsLookup r.fs e.1 with
  | none =>
    { r with errors := r.errors ++ ["Source file not found: " ++ e.1],
             skipped := r.skipped + 1 }
  | some content =>
    if e.1 = e.2 then { r with skipped := r.skipped + 1 }
    else { r with fs := fsMove r.fs e.1 e.2 content, moved := r.moved + 1 }

/-- The whole move loop of `apply-image-mapping.py main` over a mapping
given as the ordered list of `(old_relative, new_relative)` pairs. -/
def applyImageMapping (mapping : List (String × String)) (fs : Fs) :
    ApplyResult :=
  mapping.foldl applyStep { fs := fs, moved := 0, skipped := 0, errors := [] }

/-! ## Applier move pass with directories: `scripts/migrate-assets.py`

Paths under `public/` are slash-separated component lists (`MPath`), the
root `public/` itself being `[]`.  The state carries the file tree and the
set of existing directories, which the post-move cleanup loop
(lines 80-89) prunes. -/

/-- A path under `public/`, as its list of components. -/
abbrev MPath := List String

/-- One `asset-migration-map.json` entry as consumed by `migrate_files`:
the dict key (`rel_path`), the absolute source path and the target path,
both reduced to their `public/`-relative component form. -/
structure MigEntry where
  key : String
  oldPath : MPath
  newRel : MPath
deriving DecidableEq, Repr

/-- State of the `public/` tree during a `migrate_files` run, plus the
accumulated `moved_files` and `errors` report lists. -/
structure MigState where
  files : List (MPath × String)
  dirs : List MPath
  movedLog : List (MPath × MPath)
  errors : List (String × String)
deriving DecidableEq, Repr

/-- All nonempty ancestors of a path, itself included
(`mkdir(parents=True)` creates exactly these). -/
def ancestorsOf (p : MPath) : List MPath :=
  (List.range p.length).map (fun i => p.take (i + 1))

/-- Create a directory and its parents if missing. -/
def addDirs (dirs : List MPath) (d : MPath) : List MPath :=
  dirs ++ (ancestorsOf d).filter (fun a => !(dirs.contains a))

/-- One iteration of the `migrate_files` loop (lines 34-78): skip entries
already in place, create the target directory on live runs, move the file
(live runs only) when the source exists, record the move, or record a
`File not found` error. -/
def migrateStep (dryRun : Bool) (st : MigState) (e : MigEntry) : MigState :=
  if e.oldPath = e.newRel then st
  else
    let dirs1 := if !dryRun then addDirs st.dirs e.newRel.dropLast else st.dirs
    match st.files.lookup e.oldPath with
    | some c =>
      let files1 :=
        if !dryRun then
          if e.oldPath ≠ e.newRel then
            (st.files.filter (fun f => !(f.1 == e.oldPath))) ++ [(e.newRel, c)]
          else st.files
        else st.files
      { st with dirs := dirs1, files := files1,
                movedLog := st.movedLog ++ [(e.oldPath, e.newRel)] }
    | none =>
      { st with dirs := dirs1,
                errors := st.errors ++ [(e.key, "File not found")] }

/-- Emptiness test of the cleanup loop: `any(dir_path.iterdir())` is false
iff no file and no still-existing directory lies directly inside `d`. -/
def dirIsEmpty (files : List MPath) (remaining : List MPath) (d : MPath) :
    Bool :=
  !(files.any (fun f => f.dropLast == d))
    && !(remaining.any (fun d2 => !(d2 == d) && d2.dropLast == d))

/-- One iteration of the cleanup loop (lines 82-89): if the directory still
exists and is empty, remove it. -/
def cleanupStep (files : List MPath) (remaining : List MPath) (d : MPath) :
    List MPath :=
  if remaining.contains d then
    if dirIsEmpty files remaining d then remaining.erase d else remaining
  else remaining

/-- The cleanup loop over a directory listing processed in the given
`order` (the source iterates `sorted(PUBLIC_DIR.rglob("*"), reverse=True)`,
so children come before their parents). -/
def cleanupPass (files : List MPath) (order : List MPath)
    (dirs : List MPath) : List MPath :=
  order.foldl (cleanupStep files) dirs

/-- Lexicographic comparison of component paths, matching how Python sorts
`Path` objects (by their parts tuple). -/
def pathLe : MPath → MPath → Bool
  | [], _ => true
  | _ :: _, [] => false
  | x :: xs, y :: ys => if x = y then pathLe xs ys else decide (x < y)

/-- The iteration order `sorted(PUBLIC_DIR.rglob("*"), reverse=True)`
restricted to directories. -/
def revSortPaths (l : List MPath) : List MPath :=
  (l.mergeSort (fun a b => pathLe a b)).reverse

/-- Port of `migrate_files(dry_run)` (lines 21-100): the per-entry loop,
then, on live runs only, the empty-directory cleanup. -/
def migrateFiles (dryRun : Bool) (m : List MigEntry) (st : MigState) :
    MigState :=
  let st1 := m.foldl (migrateStep dryRun) st
  if !dryRun then
    { st1 with
      dirs := cleanupPass (st1.files.map (fun f => f.1))
        (revSortPaths st1.dirs) st1.dirs }
  else st1

/-- Port of the `__main__` block of `migrate-assets.py` (lines 102-116):
dry run unless `--live` is passed; a live run asks for confirmation and
aborts (second component `true`) unless the lowercased response is exactly
`yes`. -/
def migrateMain (argv : List String) (response : String) (m : List MigEntry)
    (st : MigState) : MigState × Bool :=
  let dryRun := !(argv.contains "--live")
  if dryRun then (migrateFiles true m st, false)
  else if String.mk (lowerList response.data) ≠ "yes" then (st, true)
  else (migrateFiles false m st, false)

/-! ## Scanner guards: `scan_files` and `convert-images-to-webp.py main`

`scan_files` (`organize-public-assets.py` lines 204-242) reads two roots;
a missing root is skipped silently.  The listings are supplied abstractly:
`none` means the directory does not exist, `some l` gives the files found
(for cdn-assets the `public/`-relative paths in `rglob` order; for the
`public/` root the plain file names in `iterdir` order). -/

/-- First pass of `scan_files`: files under `cdn-assets/`, deduplicated by
file name. -/
def scanCdnGo (acc : List FileItem) (seen : List String) :
    List String → List FileItem × List String
  | [] => (acc, seen)
  | r :: rest =>
    let filename := String.mk (pathName r.data)
    if seen.contains filename then scanCdnGo acc seen rest
    else
      scanCdnGo (acc ++ [⟨r, "public/" ++ r, filename⟩]) (seen ++ [filename])
        rest

/-- Second pass of `scan_files`: files directly in `public/`, skipping
`robots.txt` and names already seen in `cdn-assets/`. -/
def scanPubGo (acc : List FileItem) (seen : List String) :
    List String → List FileItem
  | [] => acc
  | n :: rest =>
    if n = "robots.txt" || seen.contains n then scanPubGo acc seen rest
    else
      scanPubGo (acc ++ [⟨"cdn-assets/" ++ n, "public/" ++ n, n⟩])
        (seen ++ [n]) rest

/-- Port of `scan_files` (lines 204-242): a missing root contributes
nothing — there is no failure path. -/
def scanFiles (cdn : Option (List String)) (pub : Option (List String)) :
    List FileItem :=
  let p1 := match cdn with
    | some listing => scanCdnGo [] [] listing
    | none => ([], [])
  match pub with
  | some listing => scanPubGo p1.1 p1.2 listing
  | none => p1.1

/-- Port of the whole planning entry point `organize_files` (lines 244-297)
including its unconditional write of `asset-migration-map.json`: the
returned list is the persisted document. -/
def organizeMain (cdn : Option (List String)) (pub : Option (List String)) :
    List (String × MapEntry) :=
  organizeFiles (scanFiles cdn pub)

/-- Raster extensions of `convert-images-to-webp.py` (constants near the
top of the script). -/
def rasterExtensions : List String :=
  [".png", ".jpg", ".jpeg", ".gif", ".bmp", ".tiff", ".tif", ".avif"]

/-- Port of `find_images_to_convert` (lines 118-133): keep raster images,
skip SVGs. -/
def findImagesToConvert (listing : List String) : List String :=
  listing.filter (fun f =>
    let ext := String.mk (lowerList (pathSuffixOf f.data))
    !(ext = ".svg") && rasterExtensions.contains ext)

/-- Port of the root-existence guard of `convert-images-to-webp.py main`
(lines 143-146): a missing images directory aborts with exit code 1
before any scanning, conversion or log write. -/
def convertWebpMain (imagesDir : Option (List String)) :
    Except Nat (List String) :=
  match imagesDir with
  | none => Except.error 1
  | some listing => Except.ok (findImagesToConvert listing)

/-! ## Reference rewriting: `scripts/update-asset-references.py`

A Python dict written by successive assignments is modelled as a list of
writes in order; lookup takes the **last** write for a key. -/

/-- Last-write-wins lookup, the read side of a Python dict built by
assignments. -/
def rmLookup (m : List (String × String)) (k : String) : Option String :=
  m.reverse.lookup k

/-- The fields of one `asset-migration-map.json` value that
`create_reverse_map` reads. -/
structure AssetMapValue where
  oldName : String
  newPath : String
deriving DecidableEq, Repr

/-- The dict writes performed for one migration-map item by
`create_reverse_map` (`update-asset-references.py` lines 34-57), in
program order.  Every write of one item carries the same value
`/cdn-assets/<new_path>`. -/
def entryWrites (relPath : String) (v : AssetMapValue) :
    List (String × String) :=
  let target := "/cdn-assets/" ++ v.newPath
  [(v.oldName, target),
   (String.mk (pathStemOf v.oldName.data), target),
   (relPath, target)]
  ++ (if startsList "cdn-assets/".data relPath.data then
        [(relPath, target), ("/" ++ relPath, target)]
      else
        [("/" ++ relPath, target), ("/cdn-assets/" ++ relPath, target)])

/-- Port of `create_reverse_map(migration_map)` (lines 30-59). -/
def createReverseMap (m : List (String × AssetMapValue)) :
    List (String × String) :=
  m.foldl (fun acc p => acc ++ entryWrites p.1 p.2) []

/-- Character class `[^\s"'<>\)\?]` of the reference pattern
(line 103). -/
def assetRefChar (c : Char) : Bool :=
  !(pyIsSpace c || c = '"' || c = '\'' || c = '<' || c = '>' || c = ')'
    || c = '?')

/-- Match length of `(/cdn-assets/[^\s"'<>\)\?]+)` at the current position
(case-sensitive: `re.sub` is called without flags). -/
def matchAssetRef (s : List Char) : Option Nat :=
  if startsList "/cdn-assets/".data s then
    let run := (s.drop 12).takeWhile (fun c => assetRefChar c)
    if run.length > 0 then some (12 + run.length) else none
  else none

/-- Port of `replace_asset_path` (lines 69-99) applied to one matched path
`p` (for this pattern the whole match is its single group): exact lookup,
then file-name lookup, then the lookup of the match with all
`/cdn-assets/` substrings removed; each hit replaces the path inside the
full match via `str.replace`. -/
def replaceAssetPath (rm : List (String × String)) (p : String) : String :=
  if !containsSub "/cdn-assets/".data p.data then p
  else
    match rmLookup rm p with
    | some v => String.mk (strReplace p.data v.data p.data)
    | none =>
      match rmLookup rm (String.mk (pathName p.data)) with
      | some v => String.mk (strReplace p.data v.data p.data)
      | none =>
        let rel := String.mk (strReplace "/cdn-assets/".data [] p.data)
        match rmLookup rm rel with
        | some v => String.mk (strReplace p.data v.data p.data)
        | none => p

/-- The `re.sub` scan of `update_file_references` (line 105): find each
leftmost match of the reference pattern, rewrite it through
`replace_asset_path`, and continue after it. -/
def subAssetRefsF (rm : List (String × String)) : Nat → List Char → List Char
  | _, [] => []
  | 0, s => s
  | fuel + 1, c :: cs =>
    match matchAssetRef (c :: cs) with
    | some n =>
      if n = 0 then c :: subAssetRefsF rm fuel cs
      else
        (replaceAssetPath rm (String.mk ((c :: cs).take n))).data
          ++ subAssetRefsF rm fuel (List.drop n (c :: cs))
    | none => c :: subAssetRefsF rm fuel cs

/-- The rewrite scan with fuel at the input length. -/
def subAssetRefs (rm : List (String × String)) (s : List Char) : List Char :=
  subAssetRefsF rm s.length s

/-- Port of `update_file_references(file_path, reverse_map)`
(lines 61-114) on the file content: the rewritten content and whether the
file was written back (which happens iff the content changed). -/
def updateFileReferences (rm : List (String × String)) (content : String) :
    String × Bool :=
  let newContent := String.mk (subAssetRefs rm content.data)
  (newContent, newContent ≠ content)

/-! ## Reference rewriting: `scripts/update-image-references.py`

Each entry of `IMAGE_REF_PATTERNS` (lines 16-23) is an explicit matcher
with Python `re` semantics under `re.IGNORECASE`; a matcher returns the
text of capture group 1 and the total match length.  The srcset handler
(lines 79-110) follows. -/

/-- Quote character class `["']`. -/
def isQuote (c : Char) : Bool :=
  c = '"' || c = '\''

/-- Port of `load_mapping` (lines 25-41): dict writes in order, one per
item plus, for old paths with a leading slash, a slashless alias. -/
def loadMapping (items : List (String × String)) : List (String × String) :=
  items.foldl (fun acc it =>
    acc ++ [(it.1, it.2)]
      ++ (if startsList ['/'] it.1.data then
            [(String.mk (it.1.data.drop 1),
              if startsList ['/'] it.2.data then String.mk (it.2.data.drop 1)
              else it.2)]
          else [])) []

/-- Matcher for the quoted-attribute patterns
`<lit>["'](/cdn-assets/[^"']+)["']` (`src=`, `href=`, `ogImage=`; the two
`ogImage` pattern variants of lines 21-22 denote the same language).
Returns the group text and the match length. -/
def matchAttr (lit : List Char) (s : List Char) :
    Option (List Char × Nat) :=
  if startsListCI lit s then
    match s.drop lit.length with
    | q :: rest2 =>
      if isQuote q && startsListCI "/cdn-assets/".data rest2 then
        let run := (rest2.drop 12).takeWhile (fun c => !isQuote c)
        if run.length > 0
            && (match rest2.drop (12 + run.length) with
                | q2 :: _ => isQuote q2
                | [] => false) then
          some (rest2.take (12 + run.length),
            lit.length + 1 + 12 + run.length + 1)
        else none
      else none
    | [] => none
  else none

/-- Backtracking tail of the `url(...)` pattern: after the greedy
`[^"']+` run fails to close with quote-then-`)`, the group shrinks to the
largest `k ≥ 1` with `run[k] = ')'`, the `)` at `k` closing the match with
an empty optional quote. -/
def matchUrlBack (lit12 run : List Char) (qlen : Nat) :
    Option (List Char × Nat) :=
  let j := (run.reverse.takeWhile (fun c => c ≠ ')')).length
  if j = run.length then none
  else
    let k := run.length - 1 - j
    if k ≥ 1 then some (lit12 ++ run.take k, 4 + qlen + 12 + k + 1)
    else none

/-- Matcher for `url\(["']?(/cdn-assets/[^"']+)["']?\)` (line 19), with the
greedy-then-backtrack close of the Python engine. -/
def matchUrl (s : List Char) : Option (List Char × Nat) :=
  if startsListCI "url(".data s then
    let rest := s.drop 4
    let step : Nat × List Char :=
      match rest with
      | q :: r => if isQuote q then (1, r) else (0, rest)
      | [] => (0, rest)
    let qlen := step.1
    let rest2 := step.2
    if startsListCI "/cdn-assets/".data rest2 then
      let lit12 := rest2.take 12
      let run := (rest2.drop 12).takeWhile (fun c => !isQuote c)
      match rest2.drop (12 + run.length) with
      | q2 :: ')' :: _ =>
        if isQuote q2 && run.length > 0 then
          some (lit12 ++ run, 4 + qlen + 12 + run.length + 2)
        else matchUrlBack lit12 run qlen
      | _ => matchUrlBack lit12 run qlen
    else none
  else none

/-- Matcher for `background-image:\s*url\(["']?(/cdn-assets/[^"']+)["']?\)`
(line 20). -/
def matchBg (s : List Char) : Option (List Char × Nat) :=
  if startsListCI "background-image:".data s then
    let w := (s.drop 17).takeWhile (fun c => pyIsSpace c)
    match matchUrl (s.drop (17 + w.length)) with
    | some p => some (p.1, 17 + w.length + p.2)
    | none => none
  else none

/-- Port of the `replace_match` closure (lines 56-74): exact lookup of the
captured path, then the slashless fallback; a hit substitutes the new path
into the whole match text and counts one update. -/
def replaceMatchIR (pm : List (String × String)) (group0 group1 : List Char) :
    List Char × Nat :=
  match rmLookup pm (String.mk group1) with
  | some v => (strReplace group1 v.data group0, 1)
  | none =>
    if startsList ['/'] group1 then
      match rmLookup pm (String.mk (group1.drop 1)) with
      | some v =>
        let v2 := if startsList ['/'] v.data then v.data else '/' :: v.data
        (strReplace group1 v2 group0, 1)
      | none => (group0, 0)
    else (group0, 0)

/-- Generic `re.sub` scan with a replacement that also counts updates. -/
def scanSubIRF (matchF : List Char → Option (List Char × Nat))
    (repl : List Char → List Char → List Char × Nat) :
    Nat → List Char → List Char × Nat
  | _, [] => ([], 0)
  | 0, s => (s, 0)
  | fuel + 1, c :: cs =>
    match matchF (c :: cs) with
    | some g =>
      if g.2 = 0 then
        let r := scanSubIRF matchF repl fuel cs
        (c :: r.1, r.2)
      else
        let rep := repl ((c :: cs).take g.2) g.1
        let r := scanSubIRF matchF repl fuel (List.drop g.2 (c :: cs))
        (rep.1 ++ r.1, rep.2 + r.2)
    | none =>
      let r := scanSubIRF matchF repl fuel cs
      (c :: r.1, r.2)

/-- The scan with fuel at the input length. -/
def scanSubIR (matchF : List Char → Option (List Char × Nat))
    (repl : List Char → List Char → List Char × Nat) (s : List Char) :
    List Char × Nat :=
  scanSubIRF matchF repl s.length s

/-- Matcher for `srcset=["']([^"']+)["']` (line 79). -/
def matchSrcset (s : List Char) : Option (List Char × Nat) :=
  if startsListCI "srcset=".data s then
    match s.drop 7 with
    | q :: rest2 =>
      if isQuote q then
        let run := rest2.takeWhile (fun c => !isQuote c)
        if run.length > 0
            && (match rest2.drop run.length with
                | q2 :: _ => isQuote q2
                | [] => false) then
          some (run, 7 + 1 + run.length + 1)
        else none
      else none
    | [] => none
  else none

/-- First match of `(/cdn-assets/[^\s]+)` in a srcset part
(`re.search`, case-sensitive, line 92). -/
def findCdnPath : List Char → Option (List Char)
  | [] => none
  | c :: cs =>
    if startsList "/cdn-assets/".data (c :: cs) then
      let run := ((c :: cs).drop 12).takeWhile (fun d => !pyIsSpace d)
      if run.length > 0 then some ("/cdn-assets/".data ++ run)
      else findCdnPath cs
    else findCdnPath cs

/-- Port of the `update_srcset` closure (lines 80-108): split the attribute
value on commas, strip each part, rewrite parts whose first embedded
`/cdn-assets/` path is a mapping key, and — when anything was rewritten —
re-serialize the whole attribute with double quotes and `", "`
separators. -/
def srcsetRepl (pm : List (String × String)) (group0 group1 : List Char) :
    List Char × Nat :=
  let processed := (splitOnChar ',' group1).map (fun part =>
    let stripped := stripWs part
    match findCdnPath stripped with
    | some old =>
      match rmLookup pm (String.mk old) with
      | some v => (strReplace old v.data stripped, true)
      | none => (stripped, false)
    | none => (stripped, false))
  if processed.any (fun p => p.2) then
    ("srcset=\"".data ++ joinWith ", ".data (processed.map (fun p => p.1))
       ++ ['"'],
     (processed.filter (fun p => p.2)).length)
  else (group0, 0)

/-- Port of the rewrite part of `update_file` (lines 43-121): the six
`IMAGE_REF_PATTERNS` passes in order, then the srcset pass, accumulating
the `updates` counter. -/
def updateImageRefs (pm : List (String × String)) (content : List Char) :
    List Char × Nat :=
  let p1 := scanSubIR (matchAttr "src=".data) (replaceMatchIR pm) content
  let p2 := scanSubIR (matchAttr "href=".data) (replaceMatchIR pm) p1.1
  let p3 := scanSubIR matchUrl (replaceMatchIR pm) p2.1
  let p4 := scanSubIR matchBg (replaceMatchIR pm) p3.1
  let p5 := scanSubIR (matchAttr "ogImage=".data) (replaceMatchIR pm) p4.1
  let p6 := scanSubIR (matchAttr "ogImage=".data) (replaceMatchIR pm) p5.1
  let p7 := scanSubIR matchSrcset (srcsetRepl pm) p6.1
  (p7.1, p1.2 + p2.2 + p3.2 + p4.2 + p5.2 + p6.2 + p7.2)

/-- Content-level result of `update_file`: new content, whether the file is
written back (iff the content changed, lines 113-121), and the update
count. -/
def updateFileImage (pm : List (String × String)) (content : String) :
    String × Bool × Nat :=
  let r := updateImageRefs pm content.data
  (String.mk r.1, (String.mk r.1 ≠ content, r.2))

/-! ## Claim C1: injectivity of the planned mapping -/

/-- Three distinct scanned files on which the suffixing of
`organize_files` collides: `a.png` and `a (1).png` both clean to
`graphic-a.png`, and the suffixed disambiguation `graphic-a-2` duplicates
the name already assigned to `a-2.png`. -/
def c1Items : List FileItem :=
  [⟨"cdn-assets/a-2.png", "public/cdn-assets/a-2.png", "a-2.png"⟩,
   ⟨"cdn-assets/a.png", "public/cdn-assets/a.png", "a.png"⟩,
   ⟨"cdn-assets/a (1).png", "public/cdn-assets/a (1).png", "a (1).png"⟩]

/-- Claim C1.  The mapping produced by `organize_files` is claimed to be
injective, including after a disambiguating numeric suffix has been
appended.  Evaluating the planner on `c1Items` shows the opposite: the
first and the third entry — two distinct original paths — are both planned
to `cdn-assets/images/graphics/graphic-a-2.png`, because the suffixed name
of line 270 is never rechecked against the names already assigned.
(`organize-images.py determine_new_path` does recheck in a `while` loop;
the violation is specific to `organize-public-assets.py`.) -/
theorem c1_organize_files_not_injective :
    (organizeFiles c1Items).map (fun e => (e.1, e.2.newPath)) =
      [("cdn-assets/a-2.png", "cdn-assets/images/graphics/graphic-a-2.png"),
       ("cdn-assets/a.png", "cdn-assets/images/graphics/graphic-a.png"),
       ("cdn-assets/a (1).png",
        "cdn-assets/images/graphics/graphic-a-2.png")]
    ∧ ((organizeFiles c1Items).map (fun e => e.2.newPath)).get? 0 =
        ((organizeFiles c1Items).map (fun e => e.2.newPath)).get? 2
    ∧ ((organizeFiles c1Items).map (fun e => e.1)).get? 0 ≠
        ((organizeFiles c1Items).map (fun e => e.1)).get? 2 := by
  refine ⟨by decide, by decide, by decide⟩

/-! ## Claim C7: the logo scenario -/

/-- Claim C7.  For `abcdef0123456789abcdef01_logo-acme.png` the planner
categorizes by the `logo` keyword, strips the 24-hex-character hash prefix,
keeps the existing `logo-` prefix without doubling it, and plans
`images/logos/logo-acme.png` under the `cdn-assets` root. -/
theorem c7_logo_scenario :
    categorizeFile "abcdef0123456789abcdef01_logo-acme.png" = ("logos", none)
    ∧ String.mk (cleanFilename "abcdef0123456789abcdef01_logo-acme.png".data
        "abcdef0123456789abcdef01_logo-acme.png".data) = "logo-acme.png"
    ∧ generateNewName "abcdef0123456789abcdef01_logo-acme.png" "logos"
        = "logo-acme.png"
    ∧ (organizeFiles
        [⟨"cdn-assets/abcdef0123456789abcdef01_logo-acme.png",
          "public/cdn-assets/abcdef0123456789abcdef01_logo-acme.png",
          "abcdef0123456789abcdef01_logo-acme.png"⟩]).map
        (fun e => (e.2.newName, e.2.newPath)) =
        [("logo-acme.png", "cdn-assets/images/logos/logo-acme.png")] := by
  refine ⟨by decide, by decide, by decide, by decide⟩

/-! ## Claim C6: missing roots -/

/-- Claim C6 counterexample.  With both roots missing (`none` listings),
`scan_files` silently yields an empty inventory and `organize_files` still
persists a mapping document — the empty one — instead of failing with a
`NotFound` condition before producing output. -/
theorem c6_missing_root_empty_mapping :
    scanFiles none none = [] ∧ organizeMain none none = [] := by
  exact ⟨rfl, rfl⟩

/-- Claim C6 amended.  `convert-images-to-webp.py` does abort with exit
code 1 when its images root is missing, before any scanning or log output;
but `organize-public-assets.py` has no such guard: a missing root is
treated as an empty listing, and the planner persists the (empty) mapping
document. -/
theorem c6_root_guards :
    convertWebpMain none = Except.error 1
    ∧ (∀ l : List String,
        convertWebpMain (some l) = Except.ok (findImagesToConvert l))
    ∧ scanFiles none none = []
    ∧ organizeMain none none = [] := by
  exact ⟨rfl, fun l => rfl, rfl, rfl⟩

/-! ## Filesystem lookup lemmas -/

theorem fsLookup_fsErase : ∀ (fs : Fs) (q p : String),
    fsLookup (fsErase fs q) p = if p = q then none else fsLookup fs p
  | [], q, p => by simp [fsLookup, fsErase, List.lookup]
  | (k, v) :: t, q, p => by
    have ih := fsLookup_fsErase t q p
    by_cases hkq : k = q
    · have h1 : fsErase ((k, v) :: t) q = fsErase t q := by
        simp [fsErase, List.filter_cons, hkq]
      rw [h1, ih]
      by_cases hpq : p = q
      · simp [hpq]
      · have hpk : (p == k) = false := by
          rw [beq_eq_false_iff_ne]
          exact fun hh => hpq (hh.trans hkq)
        simp [hpq, fsLookup, List.lookup, hpk]
    · have h1 : fsErase ((k, v) :: t) q = (k, v) :: fsErase t q := by
        simp [fsErase, List.filter_cons, hkq]
      rw [h1]
      by_cases hpk : p = k
      · have hpq : ¬p = q := fun hh => hkq (hpk.symm.trans hh)
        simp [fsLookup, List.lookup, hpk, hpq, hkq]
      · have hpk2 : (p == k) = false := by
          rw [beq_eq_false_iff_ne]
          exact hpk
        simp only [fsLookup, List.lookup, hpk2] at *
        exact ih

theorem fsLookup_fsSet (fs : Fs) (q c p : String) :
    fsLookup (fsSet fs q c) p = if p = q then some c else fsLookup fs p := by
  unfold fsSet
  rw [show fsLookup (fsErase fs q ++ [(q, c)]) p
      = List.lookup p (fsErase fs q ++ [(q, c)]) from rfl]
  rw [List.lookup_append]
  rw [show List.lookup p (fsErase fs q) = fsLookup (fsErase fs q) p from rfl]
  rw [fsLookup_fsErase]
  by_cases hpq : p = q
  · simp [hpq, List.lookup]
  · have : (p == q) = false := by simp [hpq]
    simp [hpq, this, List.lookup, fsLookup]

theorem fsLookup_fsMove (fs : Fs) (o n c p : String) :
    fsLookup (fsMove fs o n c) p =
      if p = n then some c else if p = o then none else fsLookup fs p := by
  unfold fsMove
  rw [fsLookup_fsSet, fsLookup_fsErase]

/-! ## Claim C2: idempotence of the Applier -/

/-- A chained mapping: the second entry's target is the first entry's
source. -/
def c2Mapping : List (String × String) :=
  [("images/y.png", "images/z.png"), ("images/x.png", "images/y.png")]

/-- The tree holding a file at each of the chained mapping's sources. -/
def c2Fs : Fs :=
  [("images/x.png", "XX"), ("images/y.png", "YY")]

/-- Claim C2 counterexample.  Over the chained mapping `c2Mapping`, the
first Applier run succeeds (no errors, two moves), yet the second run over
the migrated tree performs another move — `images/y.png`, recreated by the
first run's second entry, matches the first entry again — so the second
run is not a no-op and its summary does not report zero moves. -/
theorem c2_second_run_moves_again :
    (applyImageMapping c2Mapping c2Fs).errors = []
    ∧ (applyImageMapping c2Mapping c2Fs).moved = 2
    ∧ (applyImageMapping c2Mapping
        (applyImageMapping c2Mapping c2Fs).fs).moved = 1
    ∧ (applyImageMapping c2Mapping
        (applyImageMapping c2Mapping c2Fs).fs).fs
        ≠ (applyImageMapping c2Mapping c2Fs).fs := by
  refine ⟨by decide, by decide, by decide, by decide⟩

/-- If no entry of the remaining mapping can re-create path `p`, a path
absent from the tree stays absent through the whole move loop. -/
theorem applyFold_lookup_none : ∀ (m : List (String × String))
    (r : ApplyResult) (p : String),
    (∀ e ∈ m, e.1 ≠ e.2 → e.2 ≠ p) → fsLookup r.fs p = none →
    fsLookup (m.foldl applyStep r).fs p = none
  | [], r, p, _, hp => by simpa using hp
  | e :: t, r, p, hm, hp => by
    simp only [List.foldl_cons]
    refine applyFold_lookup_none t _ p
      (fun e2 he2 => hm e2 (List.mem_cons_of_mem e he2)) ?_
    unfold applyStep
    cases hle : fsLookup r.fs e.1 with
    | none => simpa using hp
    | some content =>
      by_cases hee : e.1 = e.2
      · simp only [hee, if_pos rfl]
        simpa using hp
      · simp only [if_neg hee]
        rw [fsLookup_fsMove]
        have hpn : ¬p = e.2 := by
          intro hcon
          exact hm e (List.mem_cons_self e t) hee hcon.symm
        rw [if_neg hpn]
        by_cases hpo : p = e.1
        · simp [hpo]
        · simp [hpo, hp]

/-- After one move run over a chain-free mapping, the source path of every
non-identity entry is gone from the tree. -/
theorem applyFold_clears_source : ∀ (m : List (String × String))
    (r : ApplyResult) (e : String × String), e ∈ m → e.1 ≠ e.2 →
    (∀ e2 ∈ m, e2.1 ≠ e2.2 → e2.2 ≠ e.1) →
    fsLookup (m.foldl applyStep r).fs e.1 = none
  | [], _, e, hmem, _, _ => absurd hmem (List.not_mem_nil e)
  | h :: t, r, e, hmem, hne, hm => by
    simp only [List.foldl_cons]
    rcases List.mem_cons.mp hmem with heq | hmem2
    · subst heq
      refine applyFold_lookup_none t _ e.1
        (fun e2 he2 => hm e2 (List.mem_cons_of_mem e he2)) ?_
      unfold applyStep
      cases hle : fsLookup r.fs e.1 with
      | none => simpa using hle
      | some content =>
        simp only [if_neg hne]
        rw [fsLookup_fsMove]
        rw [if_neg hne]
        simp
    · exact applyFold_clears_source t _ e hmem2 hne
        (fun e2 he2 => hm e2 (List.mem_cons_of_mem h he2))

/-- A move run in which every non-identity entry's source is already absent
neither changes the tree nor counts a move. -/
theorem applyFold_noop : ∀ (m : List (String × String)) (r : ApplyResult),
    (∀ e ∈ m, e.1 ≠ e.2 → fsLookup r.fs e.1 = none) →
    (m.foldl applyStep r).fs = r.fs ∧ (m.foldl applyStep r).moved = r.moved
  | [], _, _ => ⟨rfl, rfl⟩
  | e :: t, r, hm => by
    simp only [List.foldl_cons]
    have hstep : (applyStep r e).fs = r.fs ∧ (applyStep r e).moved = r.moved
        := by
      unfold applyStep
      cases hle : fsLookup r.fs e.1 with
      | none => exact ⟨rfl, rfl⟩
      | some content =>
        by_cases hee : e.1 = e.2
        · simp [hee]
        · exact absurd hle (by simp [hm e (List.mem_cons_self e t) hee])
    have ht := applyFold_noop t (applyStep r e) (fun e2 he2 hne2 => by
      rw [hstep.1]
      exact hm e2 (List.mem_cons_of_mem e he2) hne2)
    exact ⟨ht.1.trans hstep.1, ht.2.trans hstep.2⟩

/-- A mapping read back from `image-mapping.json` already rewritten once:
two images moved under `images/`. -/
def c2Pm : List (String × String) :=
  loadMapping [("/cdn-assets/x.png", "/cdn-assets/images/graphics/x-new.png"),
               ("/cdn-assets/y.jpg", "/cdn-assets/images/photos/y-new.jpg")]

/-- A representative source file touching the attribute, `url(...)` and
`srcset` patterns. -/
def c2Content : String :=
  "<img src=\"/cdn-assets/x.png\" srcset='/cdn-assets/x.png 1x,/cdn-assets/y.jpg 2x'> url(/cdn-assets/y.jpg)"

/-- Claim C2 amended.  The second Applier run is a no-op provided the
mapping is chain-free — no non-identity entry's new path is another
non-identity entry's old path: the second move run then performs zero
moves and leaves the tree untouched.  And on the migrated content of the
representative file, a second reference-rewrite run reports zero updates
and changes nothing (so nothing is written back). -/
theorem c2_applier_idempotent :
    (∀ (m : List (String × String)) (fs : Fs),
      (∀ e ∈ m, e.1 ≠ e.2 → ∀ e2 ∈ m, e2.1 ≠ e2.2 → e2.2 ≠ e.1) →
      (applyImageMapping m (applyImageMapping m fs).fs).moved = 0
      ∧ (applyImageMapping m (applyImageMapping m fs).fs).fs
          = (applyImageMapping m fs).fs)
    ∧ updateImageRefs c2Pm (updateImageRefs c2Pm c2Content.data).1
        = ((updateImageRefs c2Pm c2Content.data).1, 0) := by
  constructor
  · intro m fs hcf
    have hclear : ∀ e ∈ m, e.1 ≠ e.2 →
        fsLookup (applyImageMapping m fs).fs e.1 = none := by
      intro e hmem hne
      exact applyFold_clears_source m _ e hmem hne
        (fun e2 he2 hne2 => hcf e hmem hne e2 he2 hne2)
    have := applyFold_noop m
      { fs := (applyImageMapping m fs).fs, moved := 0, skipped := 0,
        errors := [] } hclear
    exact ⟨this.2, this.1⟩
  · decide

/-- Claim C2 amended witness: the chain-free hypothesis holds for a
one-entry mapping and the second run is a no-op there. -/
theorem c2_applier_idempotent_witness :
    (∀ e ∈ ([("a.png", "b.png")] : List (String × String)), e.1 ≠ e.2 →
      ∀ e2 ∈ ([("a.png", "b.png")] : List (String × String)),
        e2.1 ≠ e2.2 → e2.2 ≠ e.1)
    ∧ ((applyImageMapping [("a.png", "b.png")]
          (applyImageMapping [("a.png", "b.png")] [("a.png", "AA")]).fs).moved
        = 0
      ∧ (applyImageMapping [("a.png", "b.png")]
          (applyImageMapping [("a.png", "b.png")] [("a.png", "AA")]).fs).fs
        = (applyImageMapping [("a.png", "b.png")] [("a.png", "AA")]).fs) :=
  ⟨by decide, c2_applier_idempotent.1 [("a.png", "b.png")] [("a.png", "AA")]
    (by decide)⟩

/-! ## Claim C3: destination conflicts -/

/-- Claim C3 counterexample.  The move pass never inspects the
destination: with `b.png` present and holding different content than
`a.png`, the entry is moved anyway — destination silently overwritten, no
error recorded; and with byte-identical source and destination
(`c.png`/`d.png`, both `"S"`), the entry is moved and counted, not
skipped. -/
theorem c3_move_overwrites_destination :
    ((applyImageMapping [("a.png", "b.png")]
        [("a.png", "AAA"), ("b.png", "BBB")]).errors = []
      ∧ (applyImageMapping [("a.png", "b.png")]
          [("a.png", "AAA"), ("b.png", "BBB")]).moved = 1
      ∧ fsLookup (applyImageMapping [("a.png", "b.png")]
          [("a.png", "AAA"), ("b.png", "BBB")]).fs "b.png" = some "AAA")
    ∧ ((applyImageMapping [("c.png", "d.png")]
        [("c.png", "S"), ("d.png", "S")]).errors = []
      ∧ (applyImageMapping [("c.png", "d.png")]
          [("c.png", "S"), ("d.png", "S")]).moved = 1
      ∧ (applyImageMapping [("c.png", "d.png")]
          [("c.png", "S"), ("d.png", "S")]).skipped = 0) := by
  refine ⟨⟨by decide, by decide, by decide⟩, by decide, by decide, by decide⟩

/-- Claim C3 amended.  The move pass checks only source existence and path
equality: whenever the source exists and the paths differ, the file is
moved and any existing destination is overwritten regardless of its
content (identical or different), with no error recorded and nothing
skipped; there is no `DestinationConflict` anywhere in the code. -/
theorem c3_move_never_checks_destination :
    ∀ (p q c₁ c₂ : String), p ≠ q →
      (applyImageMapping [(p, q)] [(p, c₁), (q, c₂)]).errors = []
      ∧ (applyImageMapping [(p, q)] [(p, c₁), (q, c₂)]).moved = 1
      ∧ (applyImageMapping [(p, q)] [(p, c₁), (q, c₂)]).skipped = 0
      ∧ fsLookup (applyImageMapping [(p, q)] [(p, c₁), (q, c₂)]).fs q
          = some c₁
      ∧ fsLookup (applyImageMapping [(p, q)] [(p, c₁), (q, c₂)]).fs p
          = none := by
  intro p q c₁ c₂ hpq
  have hl : fsLookup [(p, c₁), (q, c₂)] p = some c₁ := by
    simp [fsLookup, List.lookup]
  simp only [applyImageMapping, List.foldl_cons, List.foldl_nil, applyStep,
    hl, if_neg hpq]
  refine ⟨trivial, trivial, trivial, ?_, ?_⟩
  · rw [fsLookup_fsMove, if_pos rfl]
  · rw [fsLookup_fsMove, if_neg hpq, if_pos rfl]

/-- Claim C3 amended witness: concrete overwrite of a differing
destination. -/
theorem c3_move_never_checks_destination_witness :
    ("a.png" : String) ≠ "b.png"
    ∧ ((applyImageMapping [("a.png", "b.png")]
          [("a.png", "A1"), ("b.png", "B2")]).errors = []
      ∧ (applyImageMapping [("a.png", "b.png")]
          [("a.png", "A1"), ("b.png", "B2")]).moved = 1
      ∧ (applyImageMapping [("a.png", "b.png")]
          [("a.png", "A1"), ("b.png", "B2")]).skipped = 0
      ∧ fsLookup (applyImageMapping [("a.png", "b.png")]
          [("a.png", "A1"), ("b.png", "B2")]).fs "b.png" = some "A1"
      ∧ fsLookup (applyImageMapping [("a.png", "b.png")]
          [("a.png", "A1"), ("b.png", "B2")]).fs "a.png" = none) :=
  ⟨by decide,
   c3_move_never_checks_destination "a.png" "b.png" "A1" "B2" (by decide)⟩

/-! ## Claim C8: dry-run defaults -/

/-- Claim C8 counterexample.  `apply-image-mapping.py main` has no mode
flag and no confirmation at all: the one and only way to invoke it — which
is therefore an invocation without any explicit live opt-in — moves files
on disk. -/
theorem c8_apply_mutates_without_flag :
    (applyImageMapping [("a.png", "images/a.png")] [("a.png", "A")]).moved = 1
    ∧ (applyImageMapping [("a.png", "images/a.png")] [("a.png", "A")]).fs
        ≠ [("a.png", "A")] := by
  exact ⟨by decide, by decide⟩

/-- A dry `migrate_files` loop iteration changes neither files nor
directories. -/
theorem migrateStep_dry (st : MigState) (e : MigEntry) :
    (migrateStep true st e).files = st.files
    ∧ (migrateStep true st e).dirs = st.dirs := by
  unfold migrateStep
  by_cases h1 : e.oldPath = e.newRel
  · simp [h1]
  · simp only [if_neg h1]
    cases st.files.lookup e.oldPath <;> simp

/-- A dry `migrate_files` run changes neither files nor directories. -/
theorem migrateFold_dry : ∀ (m : List MigEntry) (st : MigState),
    (m.foldl (migrateStep true) st).files = st.files
    ∧ (m.foldl (migrateStep true) st).dirs = st.dirs
  | [], _ => ⟨rfl, rfl⟩
  | e :: t, st => by
    simp only [List.foldl_cons]
    have hs := migrateStep_dry st e
    have ht := migrateFold_dry t (migrateStep true st e)
    exact ⟨ht.1.trans hs.1, ht.2.trans hs.2⟩

/-- Claim C8 amended.  `migrate-assets.py` does implement the claimed
interface: without `--live`, the run is dry and touches neither files nor
directories; with `--live`, any confirmation response other than `yes`
(case-insensitively) aborts with the state untouched.  The other mutating
entry points (`apply-image-mapping.py`, the reference updaters) have no
flag or confirmation at all and mutate unconditionally. -/
theorem c8_migrate_dry_run_default :
    (∀ (argv : List String) (resp : String) (m : List MigEntry)
        (st : MigState), "--live" ∉ argv →
      (migrateMain argv resp m st).1.files = st.files
      ∧ (migrateMain argv resp m st).1.dirs = st.dirs
      ∧ (migrateMain argv resp m st).2 = false)
    ∧ (∀ (argv : List String) (resp : String) (m : List MigEntry)
        (st : MigState), "--live" ∈ argv →
        String.mk (lowerList resp.data) ≠ "yes" →
      migrateMain argv resp m st = (st, true)) := by
  constructor
  · intro argv resp m st h
    have hc : argv.contains "--live" = false := by simpa using h
    have hf := migrateFold_dry m st
    simp only [migrateMain, hc, Bool.not_false, if_true, migrateFiles,
      Bool.not_true, Bool.false_eq_true, if_false]
    exact ⟨hf.1, hf.2, trivial⟩
  · intro argv resp m st h hno
    have hc : argv.contains "--live" = true := by simpa using h
    simp only [migrateMain, hc, Bool.not_true, Bool.false_eq_true, if_false,
      if_pos hno]

/-- Claim C8 amended witness: a flagless invocation is dry and leaves the
state alone; a live invocation answered `no` aborts. -/
theorem c8_migrate_dry_run_default_witness :
    (("--live" ∉ (["scripts/migrate-assets.py"] : List String))
      ∧ ((migrateMain ["scripts/migrate-assets.py"] "yes"
            [⟨"k", ["a.png"], ["b", "a.png"]⟩]
            ⟨[(["a.png"], "A")], [], [], []⟩).1.files = [(["a.png"], "A")]
        ∧ (migrateMain ["scripts/migrate-assets.py"] "yes"
            [⟨"k", ["a.png"], ["b", "a.png"]⟩]
            ⟨[(["a.png"], "A")], [], [], []⟩).1.dirs = []
        ∧ (migrateMain ["scripts/migrate-assets.py"] "yes"
            [⟨"k", ["a.png"], ["b", "a.png"]⟩]
            ⟨[(["a.png"], "A")], [], [], []⟩).2 = false))
    ∧ (("--live" ∈ (["--live"] : List String))
      ∧ String.mk (lowerList ("NO" : String).data) ≠ "yes"
      ∧ migrateMain ["--live"] "NO" [⟨"k", ["a.png"], ["b", "a.png"]⟩]
          ⟨[(["a.png"], "A")], [], [], []⟩
        = (⟨[(["a.png"], "A")], [], [], []⟩, true)) :=
  ⟨⟨by decide,
    c8_migrate_dry_run_default.1 ["scripts/migrate-assets.py"] "yes"
      [⟨"k", ["a.png"], ["b", "a.png"]⟩] ⟨[(["a.png"], "A")], [], [], []⟩
      (by decide)⟩,
   ⟨by decide, by decide,
    c8_migrate_dry_run_default.2 ["--live"] "NO"
      [⟨"k", ["a.png"], ["b", "a.png"]⟩] ⟨[(["a.png"], "A")], [], [], []⟩
      (by decide) (by decide)⟩⟩

/-! ## Claim C9: duplicate `old_name` in the reverse map -/

theorem strMk_data : ∀ s : String, String.mk s.data = s
  | ⟨_⟩ => rfl

theorem isPrefixOf_self : ∀ l : List Char, List.isPrefixOf l l = true
  | [] => rfl
  | c :: cs => by
    simp only [List.isPrefixOf, beq_self_eq_true, Bool.true_and]
    exact isPrefixOf_self cs

/-- Replacing a nonempty string inside itself yields the replacement. -/
theorem strReplace_self (old new : List Char) (h : old ≠ []) :
    strReplace old new old = new := by
  cases old with
  | nil => exact absurd rfl h
  | cons c cs =>
    show strReplaceF (c :: cs) new (c :: cs).length (c :: cs) = new
    simp only [List.length_cons, strReplaceF, startsList,
      isPrefixOf_self, List.isEmpty_cons, Bool.not_false, Bool.and_self,
      if_true]
    have hd : List.drop (cs.length + 1) (c :: cs) = [] := by
      simp [List.drop_length]
    rw [hd]
    simp [strReplaceF]

/-- In a write list whose entries all carry value `v` and whose keys
include `k`, lookup finds `v` no matter what follows. -/
theorem lookup_of_all_value : ∀ (l : List (String × String)) (k v : String)
    (rest : List (String × String)), (∀ pr ∈ l, pr.2 = v) →
    (∃ pr ∈ l, pr.1 = k) → List.lookup k (l ++ rest) = some v
  | [], _, _, _, _, hex => by simp at hex
  | (k1, v1) :: t, k, v, rest, hall, hex => by
    by_cases hk : k = k1
    · have hv1 : v1 = v := hall (k1, v1) (List.mem_cons_self _ _)
      simp [List.lookup, hk, hv1]
    · have hk2 : (k == k1) = false := by
        rw [beq_eq_false_iff_ne]
        exact hk
      simp only [List.cons_append, List.lookup, hk2]
      refine lookup_of_all_value t k v rest
        (fun pr hpr => hall pr (List.mem_cons_of_mem _ hpr)) ?_
      rcases hex with ⟨pr, hmem, hkey⟩
      rcases List.mem_cons.mp hmem with heq | hmem2
      · exact absurd (heq ▸ hkey : (k1, v1).1 = k) (fun hh => hk hh.symm)
      · exact ⟨pr, hmem2, hkey⟩

/-- Every write of one `create_reverse_map` item carries the same value. -/
theorem entryWrites_value (rel : String) (v : AssetMapValue) :
    ∀ pr ∈ entryWrites rel v, pr.2 = "/cdn-assets/" ++ v.newPath := by
  intro pr hpr
  unfold entryWrites at hpr
  by_cases hrel : startsList "cdn-assets/".data rel.data
  · simp only [hrel, if_true, List.cons_append, List.nil_append,
      List.mem_cons, List.not_mem_nil, or_false] at hpr
    rcases hpr with h | h | h | h | h <;> simp [h]
  · simp only [hrel, if_false, Bool.false_eq_true, List.cons_append,
      List.nil_append, List.mem_cons, List.not_mem_nil, or_false] at hpr
    rcases hpr with h | h | h | h | h <;> simp [h]

/-- The old file name is among the keys written for an item. -/
theorem entryWrites_key (rel : String) (v : AssetMapValue) :
    (v.oldName, "/cdn-assets/" ++ v.newPath) ∈ entryWrites rel v := by
  unfold entryWrites
  exact List.mem_append_left _ (List.mem_cons_self _ _)

/-- Claim C9.  In a migration map whose two entries share the same
`old_name`, `create_reverse_map` binds that file name to the entry
iterated last, so a reference that misses the exact-path lookup and
carries that file name is rewritten by the filename-only fallback of
`update_file_references` to the last entry's new path — also when the
reference denotes the first asset. -/
theorem c9_duplicate_old_name_last_wins :
    ∀ (r1 r2 : String) (v1 v2 : AssetMapValue) (p : String),
      v1.oldName = v2.oldName →
      rmLookup (createReverseMap [(r1, v1), (r2, v2)]) v1.oldName
        = some ("/cdn-assets/" ++ v2.newPath)
      ∧ (rmLookup (createReverseMap [(r1, v1), (r2, v2)]) p = none →
         String.mk (pathName p.data) = v1.oldName →
         p ≠ "" →
         containsSub "/cdn-assets/".data p.data = true →
         replaceAssetPath (createReverseMap [(r1, v1), (r2, v2)]) p
           = "/cdn-assets/" ++ v2.newPath) := by
  intro r1 r2 v1 v2 p hname
  have hcrm : createReverseMap [(r1, v1), (r2, v2)]
      = entryWrites r1 v1 ++ entryWrites r2 v2 := by
    simp [createReverseMap]
  have hlast : rmLookup (createReverseMap [(r1, v1), (r2, v2)]) v1.oldName
      = some ("/cdn-assets/" ++ v2.newPath) := by
    rw [hcrm]
    unfold rmLookup
    rw [List.reverse_append]
    refine lookup_of_all_value _ _ _ _
      (fun pr hpr => entryWrites_value r2 v2 pr (List.mem_reverse.mp hpr)) ?_
    exact ⟨(v2.oldName, "/cdn-assets/" ++ v2.newPath),
      List.mem_reverse.mpr (entryWrites_key r2 v2), hname.symm⟩
  refine ⟨hlast, ?_⟩
  intro hexact hfile hne hsub
  unfold replaceAssetPath
  rw [hsub]
  simp only [Bool.not_true, Bool.false_eq_true, if_false]
  rw [hexact, hfile, hlast]
  have hdata : p.data ≠ [] := by
    intro hd
    apply hne
    cases p with
    | mk d =>
      subst hd
      decide
  show String.mk (strReplace p.data ("/cdn-assets/" ++ v2.newPath).data
      p.data) = "/cdn-assets/" ++ v2.newPath
  rw [strReplace_self p.data ("/cdn-assets/" ++ v2.newPath).data hdata]

/-- Claim C9 witness: two entries both named `x.png`; the reference
`/cdn-assets/c/x.png` misses every exact key and lands on the second
entry's target. -/
theorem c9_duplicate_old_name_last_wins_witness :
    (AssetMapValue.mk "x.png" "na.png").oldName
        = (AssetMapValue.mk "x.png" "nb.png").oldName
    ∧ rmLookup (createReverseMap
        [("cdn-assets/a/x.png", AssetMapValue.mk "x.png" "na.png"),
         ("cdn-assets/b/x.png", AssetMapValue.mk "x.png" "nb.png")])
        (AssetMapValue.mk "x.png" "na.png").oldName
      = some ("/cdn-assets/" ++ (AssetMapValue.mk "x.png" "nb.png").newPath)
    ∧ replaceAssetPath (createReverseMap
        [("cdn-assets/a/x.png", AssetMapValue.mk "x.png" "na.png"),
         ("cdn-assets/b/x.png", AssetMapValue.mk "x.png" "nb.png")])
        "/cdn-assets/c/x.png"
      = "/cdn-assets/" ++ (AssetMapValue.mk "x.png" "nb.png").newPath :=
  ⟨by decide,
   (c9_duplicate_old_name_last_wins "cdn-assets/a/x.png" "cdn-assets/b/x.png"
      (AssetMapValue.mk "x.png" "na.png") (AssetMapValue.mk "x.png" "nb.png")
      "/cdn-assets/c/x.png" (by decide)).1,
   (c9_duplicate_old_name_last_wins "cdn-assets/a/x.png" "cdn-assets/b/x.png"
      (AssetMapValue.mk "x.png" "na.png") (AssetMapValue.mk "x.png" "nb.png")
      "/cdn-assets/c/x.png" (by decide)).2 (by decide) (by decide)
      (by decide) (by decide)⟩

/-! ## Substring-occurrence toolkit

Lemmas that propagate "the file contains no occurrence of
`/cdn-assets/`" into every position, substring and split piece a rewrite
pass can look at. -/

theorem startsList_false_of_containsSub_false {n s : List Char}
    (h : containsSub n s = false) : startsList n s = false := by
  cases s with
  | nil => simpa [containsSub] using h
  | cons c cs =>
    simp only [containsSub, Bool.or_eq_false_iff] at h
    exact h.1

theorem containsSub_tail_false {n : List Char} {c : Char} {cs : List Char}
    (h : containsSub n (c :: cs) = false) : containsSub n cs = false := by
  simp only [containsSub, Bool.or_eq_false_iff] at h
  exact h.2

theorem containsSub_drop_false {n : List Char} :
    ∀ (k : Nat) {s : List Char}, containsSub n s = false →
    containsSub n (List.drop k s) = false
  | 0, s, h => by simpa using h
  | _ + 1, [], h => by simpa using h
  | k + 1, _ :: cs, h =>
    containsSub_drop_false k (containsSub_tail_false h)

theorem isPrefixOf_append {n t r : List Char}
    (h : List.isPrefixOf n t = true) :
    List.isPrefixOf n (t ++ r) = true := by
  induction n generalizing t with
  | nil => simp [List.isPrefixOf]
  | cons x xs ih =>
    cases t with
    | nil => simp [List.isPrefixOf] at h
    | cons y ys =>
      simp only [List.isPrefixOf, Bool.and_eq_true] at h ⊢
      exact ⟨h.1, ih h.2⟩

theorem containsSub_append_right {n t r : List Char}
    (h : containsSub n t = true) : containsSub n (t ++ r) = true := by
  induction t with
  | nil =>
    have : n = [] := by
      cases n with
      | nil => rfl
      | cons x xs => simp [containsSub, startsList, List.isPrefixOf] at h
    subst this
    cases r <;> simp [containsSub, startsList, List.isPrefixOf]
  | cons c cs ih =>
    simp only [containsSub, Bool.or_eq_true] at h ⊢
    rcases h with h | h
    · exact Or.inl (isPrefixOf_append h)
    · exact Or.inr (ih h)

theorem containsSub_append_left {n t : List Char} :
    ∀ {l : List Char}, containsSub n t = true →
    containsSub n (l ++ t) = true
  | [], h => h
  | _ :: ls, h => by
    simp only [List.cons_append, containsSub, Bool.or_eq_true]
    exact Or.inr (containsSub_append_left h)

theorem containsSub_infix_false {n t s : List Char} (hinf : t <:+: s)
    (h : containsSub n s = false) : containsSub n t = false := by
  cases hct : containsSub n t with
  | false => rfl
  | true =>
    exfalso
    rcases hinf with ⟨u, v, huv⟩
    have : containsSub n s = true := by
      rw [← huv, List.append_assoc]
      exact containsSub_append_left (containsSub_append_right hct)
    rw [this] at h
    cases h

theorem isPrefixOf_map (f : Char → Char) :
    ∀ {n t : List Char}, List.isPrefixOf n t = true →
    List.isPrefixOf (n.map f) (t.map f) = true
  | [], _, _ => by simp [List.isPrefixOf]
  | _ :: _, [], h => by simp [List.isPrefixOf] at h
  | x :: xs, y :: ys, h => by
    simp only [List.isPrefixOf, Bool.and_eq_true, beq_iff_eq] at h
    simp only [List.map, List.isPrefixOf, Bool.and_eq_true, beq_iff_eq]
    exact ⟨by rw [h.1], isPrefixOf_map f h.2⟩

theorem containsSub_map {n t : List Char} (f : Char → Char)
    (h : containsSub n t = true) :
    containsSub (n.map f) (t.map f) = true := by
  induction t with
  | nil =>
    have : n = [] := by
      cases n with
      | nil => rfl
      | cons x xs => simp [containsSub, startsList, List.isPrefixOf] at h
    subst this
    simp [containsSub, startsList, List.isPrefixOf]
  | cons c cs ih =>
    simp only [containsSub, Bool.or_eq_true, startsList] at h ⊢
    rcases h with h | h
    · exact Or.inl (isPrefixOf_map f h)
    · exact Or.inr (ih h)

/-- A case-sensitive occurrence of a needle that lowercasing fixes is also
a case-insensitive occurrence. -/
theorem containsSubCI_of_containsSub {n t : List Char}
    (hn : n.map Char.toLower = n) (h : containsSub n t = true) :
    containsSubCI n t = true := by
  unfold containsSubCI
  rw [hn]
  have := containsSub_map Char.toLower h
  rw [hn] at this
  exact this

theorem containsSub_takeWhile_false {n : List Char} (p : Char → Bool)
    {s : List Char} (h : containsSub n s = false) :
    containsSub n (s.takeWhile p) = false := by
  refine containsSub_infix_false ?_ h
  exact (List.takeWhile_prefix p).isInfix

theorem containsSub_take_false {n : List Char} (k : Nat) {s : List Char}
    (h : containsSub n s = false) :
    containsSub n (s.take k) = false := by
  refine containsSub_infix_false ?_ h
  exact (List.take_prefix k s).isInfix

/-- The head piece of a split is a prefix of the input. -/
theorem splitOnChar_head_isPre : ∀ (sep : Char) (s r : List Char)
    (rs : List (List Char)), splitOnChar sep s = r :: rs → r <+: s
  | _, [], r, rs, h => by
    simp only [splitOnChar, List.cons.injEq] at h
    simp [← h.1]
  | sep, c :: cs, r, rs, h => by
    simp only [splitOnChar] at h
    by_cases hc : c = sep
    · rw [if_pos hc] at h
      rw [← (List.cons.injEq _ _ _ _).mp h |>.1]
      exact List.nil_prefix
    · rw [if_neg hc] at h
      cases hrest : splitOnChar sep cs with
      | nil =>
        rw [hrest] at h
        simp only [List.cons.injEq] at h
        rw [← h.1]
        exact ⟨cs, rfl⟩
      | cons r2 rs2 =>
        rw [hrest] at h
        simp only [List.cons.injEq] at h
        rcases splitOnChar_head_isPre sep cs r2 rs2 hrest with ⟨t, ht⟩
        rw [← h.1]
        exact ⟨t, by rw [List.cons_append, ht]⟩

/-- Every piece of a split is an infix of the input. -/
theorem splitOnChar_piece_sub : ∀ (sep : Char) (s : List Char),
    ∀ p ∈ splitOnChar sep s, p <:+: s
  | _, [], p, hp => by
    simp only [splitOnChar, List.mem_singleton] at hp
    simp [hp]
  | sep, c :: cs, p, hp => by
    simp only [splitOnChar] at hp
    by_cases hc : c = sep
    · rw [if_pos hc] at hp
      rcases List.mem_cons.mp hp with h | h
      · simp [h]
      · exact (splitOnChar_piece_sub sep cs p h).trans (List.infix_cons
          (List.infix_refl cs))
    · rw [if_neg hc] at hp
      cases hrest : splitOnChar sep cs with
      | nil =>
        rw [hrest] at hp
        simp only [List.mem_singleton] at hp
        rw [hp]
        have hpre : [c] <+: c :: cs := ⟨cs, rfl⟩
        exact hpre.isInfix
      | cons r rs =>
        rw [hrest] at hp
        rcases List.mem_cons.mp hp with h | h
        · rcases splitOnChar_head_isPre sep cs r rs hrest with ⟨t, ht⟩
          rw [h]
          have hpre : (c :: r) <+: c :: cs := ⟨t, by rw [List.cons_append, ht]⟩
          exact hpre.isInfix
        · have hmem : p ∈ splitOnChar sep cs := by
            rw [hrest]
            exact List.mem_cons_of_mem _ h
          exact (splitOnChar_piece_sub sep cs p hmem).trans
            (List.infix_cons (List.infix_refl cs))

/-- Stripping whitespace yields an infix. -/
theorem stripWs_sub (s : List Char) : stripWs s <:+: s := by
  unfold stripWs
  have h1 : s.dropWhile (fun c => pyIsSpace c) <:+ s :=
    List.dropWhile_suffix _
  have h2a : (s.dropWhile (fun c => pyIsSpace c)).reverse.dropWhile
      (fun c => pyIsSpace c) <:+
      (s.dropWhile (fun c => pyIsSpace c)).reverse :=
    List.dropWhile_suffix _
  have h2b := List.reverse_prefix.mpr h2a
  rw [List.reverse_reverse] at h2b
  exact h2b.isInfix.trans h1.isInfix

/-! ## Matches require an occurrence of `/cdn-assets/` -/

theorem containsSub_of_startsList_drop : ∀ (k : Nat) (t n : List Char),
    startsList n (List.drop k t) = true → containsSub n t = true
  | 0, [], _, h => by simpa [containsSub] using h
  | 0, c :: cs, n, h => by
    simp only [containsSub, Bool.or_eq_true]
    exact Or.inl (by simpa using h)
  | _ + 1, [], _, h => by simpa [containsSub] using h
  | k + 1, c :: cs, n, h => by
    simp only [containsSub, Bool.or_eq_true]
    exact Or.inr (containsSub_of_startsList_drop k cs n (by simpa using h))

theorem startsListCI_drop_false {s : List Char} (j : Nat)
    (h : containsSubCI "/cdn-assets/".data s = false) :
    startsListCI "/cdn-assets/".data (List.drop j s) = false := by
  cases hb : startsListCI "/cdn-assets/".data (List.drop j s) with
  | false => rfl
  | true =>
    exfalso
    unfold startsListCI at hb
    rw [List.map_drop] at hb
    have := containsSub_of_startsList_drop j (s.map Char.toLower)
      ("/cdn-assets/".data.map Char.toLower) hb
    unfold containsSubCI at h
    rw [this] at h
    cases h

theorem containsSubCI_drop_false {n s : List Char} (k : Nat)
    (h : containsSubCI n s = false) :
    containsSubCI n (List.drop k s) = false := by
  unfold containsSubCI at *
  rw [List.map_drop]
  exact containsSub_drop_false k h

/-- The tail after pattern-matching one character off `s.drop k`. -/
theorem drop_tail_eq {s : List Char} {k : Nat} {q : Char} {r : List Char}
    (h : s.drop k = q :: r) : r = s.drop (k + 1) := by
  have h3 : (s.drop k).drop 1 = s.drop (k + 1) := List.drop_drop 1 k s
  rw [h] at h3
  simpa using h3

/-- Without a case-insensitive `/cdn-assets/` occurrence there is no
quoted-attribute match. -/
theorem matchAttr_none (lit : List Char) {s : List Char}
    (h : containsSubCI "/cdn-assets/".data s = false) :
    matchAttr lit s = none := by
  unfold matchAttr
  by_cases h1 : startsListCI lit s
  swap
  · simp [h1]
  simp only [h1, if_true]
  cases hdrop : s.drop lit.length with
  | nil => rfl
  | cons q rest2 =>
    have hr2 : rest2 = s.drop (lit.length + 1) := drop_tail_eq hdrop
    have h2 : startsListCI "/cdn-assets/".data rest2 = false := by
      rw [hr2]
      exact startsListCI_drop_false _ h
    simp [h2]

/-- Without a case-insensitive `/cdn-assets/` occurrence there is no
`url(...)` match. -/
theorem matchUrl_none {s : List Char}
    (h : containsSubCI "/cdn-assets/".data s = false) :
    matchUrl s = none := by
  unfold matchUrl
  by_cases h1 : startsListCI "url(".data s
  swap
  · simp [h1]
  simp only [h1, if_true]
  cases hd : s.drop 4 with
  | nil =>
    have h2 := startsListCI_drop_false 4 h
    rw [hd] at h2
    simp [h2]
  | cons q r =>
    by_cases hq : isQuote q
    · have hr : r = s.drop 5 := drop_tail_eq hd
      have h2 : startsListCI "/cdn-assets/".data r = false := by
        rw [hr]
        exact startsListCI_drop_false 5 h
      simp [hq, h2]
    · have h2 := startsListCI_drop_false 4 h
      rw [hd] at h2
      simp [hq, h2]

/-- Without a case-insensitive `/cdn-assets/` occurrence there is no
`background-image` match. -/
theorem matchBg_none {s : List Char}
    (h : containsSubCI "/cdn-assets/".data s = false) :
    matchBg s = none := by
  unfold matchBg
  by_cases h1 : startsListCI "background-image:".data s
  swap
  · simp [h1]
  simp only [h1, if_true]
  rw [matchUrl_none (containsSubCI_drop_false _ h)]

/-- Without a case-sensitive `/cdn-assets/` occurrence `re.search` finds
no srcset path. -/
theorem findCdnPath_none : ∀ {t : List Char},
    containsSub "/cdn-assets/".data t = false → findCdnPath t = none
  | [], _ => rfl
  | c :: cs, h => by
    unfold findCdnPath
    rw [startsList_false_of_containsSub_false h]
    simp only [Bool.false_eq_true, if_false]
    exact findCdnPath_none (containsSub_tail_false h)

/-- Generic identity lemma for a `re.sub` scan: if, under an invariant
preserved by tails and drops, every match's replacement hands back the
matched text with a zero count, the scan is the identity. -/
theorem scanSubIRF_id (matchF : List Char → Option (List Char × Nat))
    (repl : List Char → List Char → List Char × Nat) (P : List Char → Prop)
    (htail : ∀ c cs, P (c :: cs) → P cs)
    (hdrop : ∀ n s, P s → P (List.drop n s))
    (hm : ∀ s, P s → ∀ g1 n, matchF s = some (g1, n) →
      repl (s.take n) g1 = (s.take n, 0)) :
    ∀ (fuel : Nat) (s : List Char), P s →
      scanSubIRF matchF repl fuel s = (s, 0)
  | fuel, [], _ => by cases fuel <;> simp [scanSubIRF]
  | 0, c :: cs, _ => by simp [scanSubIRF]
  | fuel + 1, c :: cs, hp => by
    cases hmt : matchF (c :: cs) with
    | none =>
      simp only [scanSubIRF, hmt]
      rw [scanSubIRF_id matchF repl P htail hdrop hm fuel cs
        (htail c cs hp)]
    | some g =>
      simp only [scanSubIRF, hmt]
      by_cases hg : g.2 = 0
      · simp only [hg, if_true]
        rw [scanSubIRF_id matchF repl P htail hdrop hm fuel cs
          (htail c cs hp)]
      · have hrep := hm (c :: cs) hp g.1 g.2 (by rw [hmt])
        simp only [hg, if_false]
        rw [hrep]
        rw [scanSubIRF_id matchF repl P htail hdrop hm fuel
          (List.drop g.2 (c :: cs)) (hdrop g.2 (c :: cs) hp)]
        simp [List.take_append_drop]

/-- The invariant used for the image-reference passes: no
case-insensitive occurrence of `/cdn-assets/`. -/
def NoCdnCI (s : List Char) : Prop :=
  containsSubCI "/cdn-assets/".data s = false

theorem noCdnCI_tail (c : Char) (cs : List Char) (h : NoCdnCI (c :: cs)) :
    NoCdnCI cs :=
  containsSub_tail_false h

theorem noCdnCI_drop (n : Nat) (s : List Char) (h : NoCdnCI s) :
    NoCdnCI (List.drop n s) :=
  containsSubCI_drop_false n h

/-- Without a case-insensitive occurrence, a case-sensitive one is also
absent. -/
theorem noCdnCS_of_noCdnCI {s : List Char} (h : NoCdnCI s) :
    containsSub "/cdn-assets/".data s = false := by
  cases hb : containsSub "/cdn-assets/".data s with
  | false => rfl
  | true =>
    exfalso
    have := containsSubCI_of_containsSub (by decide) hb
    unfold NoCdnCI at h
    rw [this] at h
    cases h

/-- Under `NoCdnCI` the srcset handler hands back the matched text with a
zero count: no part contains a rewritable path. -/
theorem srcsetRepl_id (pm : List (String × String)) :
    ∀ (s : List Char), NoCdnCI s → ∀ (g1 : List Char) (n : Nat),
      matchSrcset s = some (g1, n) →
      srcsetRepl pm (s.take n) g1 = (s.take n, 0) := by
  intro s hp g1 n hmt
  unfold matchSrcset at hmt
  by_cases h1 : startsListCI "srcset=".data s
  swap
  · rw [if_neg h1] at hmt
    cases hmt
  rw [if_pos h1] at hmt
  cases hd : s.drop 7 with
  | nil =>
    rw [hd] at hmt
    cases hmt
  | cons q rest2 =>
    rw [hd] at hmt
    by_cases hq : isQuote q
    swap
    · simp [hq] at hmt
    simp only [hq, if_true] at hmt
    have hg1 : g1 = rest2.takeWhile (fun c => !isQuote c) := by
      split at hmt
      · injection hmt with hpair
        exact (congrArg Prod.fst hpair).symm
      · cases hmt
    have hrest2 : rest2 = s.drop 8 := drop_tail_eq hd
    have hcs : containsSub "/cdn-assets/".data g1 = false := by
      rw [hg1, hrest2]
      exact containsSub_takeWhile_false _
        (containsSub_drop_false 8 (noCdnCS_of_noCdnCI hp))
    unfold srcsetRepl
    have hparts : ∀ part ∈ splitOnChar ',' g1,
        findCdnPath (stripWs part) = none := by
      intro part hpart
      exact findCdnPath_none (containsSub_infix_false
        ((stripWs_sub part).trans (splitOnChar_piece_sub ',' g1 part hpart))
        hcs)
    have hany : ((splitOnChar ',' g1).map (fun part =>
        match findCdnPath (stripWs part) with
        | some old =>
          match rmLookup pm (String.mk old) with
          | some v => (strReplace old v.data (stripWs part), true)
          | none => (stripWs part, false)
        | none => (stripWs part, false))).any (fun p => p.2) = false := by
      rw [List.any_eq_false]
      intro x hx
      rcases List.mem_map.mp hx with ⟨part, hpart, hfx⟩
      rw [← hfx]
      simp [hparts part hpart]
    simp only [hany, Bool.false_eq_true, if_false]

/-- A quoted-attribute pass is the identity on cdn-free content. -/
theorem scanAttr_id (pm : List (String × String)) (lit : List Char)
    (s : List Char) (hp : NoCdnCI s) :
    scanSubIR (matchAttr lit) (replaceMatchIR pm) s = (s, 0) :=
  scanSubIRF_id _ _ NoCdnCI noCdnCI_tail noCdnCI_drop
    (fun t hpt g1 n hmt => by
      rw [matchAttr_none lit hpt] at hmt
      cases hmt) s.length s hp

/-- The `url(...)` pass is the identity on cdn-free content. -/
theorem scanUrl_id (pm : List (String × String)) (s : List Char)
    (hp : NoCdnCI s) :
    scanSubIR matchUrl (replaceMatchIR pm) s = (s, 0) :=
  scanSubIRF_id _ _ NoCdnCI noCdnCI_tail noCdnCI_drop
    (fun t hpt g1 n hmt => by
      rw [matchUrl_none hpt] at hmt
      cases hmt) s.length s hp

/-- The `background-image` pass is the identity on cdn-free content. -/
theorem scanBg_id (pm : List (String × String)) (s : List Char)
    (hp : NoCdnCI s) :
    scanSubIR matchBg (replaceMatchIR pm) s = (s, 0) :=
  scanSubIRF_id _ _ NoCdnCI noCdnCI_tail noCdnCI_drop
    (fun t hpt g1 n hmt => by
      rw [matchBg_none hpt] at hmt
      cases hmt) s.length s hp

/-- The srcset pass is the identity on cdn-free content. -/
theorem scanSrcset_id (pm : List (String × String)) (s : List Char)
    (hp : NoCdnCI s) :
    scanSubIR matchSrcset (srcsetRepl pm) s = (s, 0) :=
  scanSubIRF_id _ _ NoCdnCI noCdnCI_tail noCdnCI_drop
    (srcsetRepl_id pm) s.length s hp

/-- All seven passes of `update_file` leave cdn-free content untouched and
count zero updates. -/
theorem updateImageRefs_no_cdn (pm : List (String × String))
    (s : List Char) (hp : NoCdnCI s) :
    updateImageRefs pm s = (s, 0) := by
  unfold updateImageRefs
  rw [scanAttr_id pm _ s hp]
  simp only
  rw [scanAttr_id pm _ s hp, scanUrl_id pm s hp, scanBg_id pm s hp,
    scanAttr_id pm _ s hp, scanAttr_id pm _ s hp, scanSrcset_id pm s hp]
  simp

/-- The asset-reference scan is the identity on content without a
case-sensitive `/cdn-assets/` occurrence. -/
theorem subAssetRefsF_no_cdn (rm : List (String × String)) :
    ∀ (fuel : Nat) (s : List Char),
      containsSub "/cdn-assets/".data s = false →
      subAssetRefsF rm fuel s = s
  | fuel, [], _ => by cases fuel <;> simp [subAssetRefsF]
  | 0, c :: cs, _ => by simp [subAssetRefsF]
  | fuel + 1, c :: cs, h => by
    have hm : matchAssetRef (c :: cs) = none := by
      unfold matchAssetRef
      rw [startsList_false_of_containsSub_false h]
      simp
    simp only [subAssetRefsF, hm]
    rw [subAssetRefsF_no_cdn rm fuel cs (containsSub_tail_false h)]

/-! ## Claim C4: external links -/

/-- The reverse map of a single migrated asset `cdn-assets/img/x.png`. -/
def c4Rm : List (String × String) :=
  createReverseMap
    [("cdn-assets/img/x.png",
      AssetMapValue.mk "x.png" "images/graphics/x-new.png")]

/-- Claim C4 counterexample.  An external `https://` reference whose URL
happens to contain `/cdn-assets/` is rewritten by the asset-reference
pass: the pass keys on the substring, not on the scheme, so the external
link is not left byte-identical. -/
theorem c4_external_url_rewritten :
    updateFileReferences c4Rm
        "href=\"https://example.com/cdn-assets/img/x.png\""
      = ("href=\"https://example.com/cdn-assets/images/graphics/x-new.png\"",
         true)
    ∧ (updateFileReferences c4Rm
        "href=\"https://example.com/cdn-assets/img/x.png\"").1
      ≠ "href=\"https://example.com/cdn-assets/img/x.png\"" := by
  exact ⟨by decide, by decide⟩

/-- Claim C4 amended.  The rewrite passes key on the substring
`/cdn-assets/`, not on the reference's scheme: any file content without a
case-sensitive occurrence of `/cdn-assets/` is left byte-identical (and
unwritten) by `update-asset-references.py`, and any content without even a
case-insensitive occurrence is left byte-identical with zero updates by
`update-image-references.py`.  In particular an `http(s)`, `mailto:` or
`tel:` reference is preserved exactly when its literal does not contain
`/cdn-assets/`; the counterexample shows it is rewritten when it does. -/
theorem c4_external_links_preserved :
    (∀ (rm : List (String × String)) (s : String),
      containsSub "/cdn-assets/".data s.data = false →
      updateFileReferences rm s = (s, false))
    ∧ (∀ (pm : List (String × String)) (s : String),
      containsSubCI "/cdn-assets/".data s.data = false →
      updateFileImage pm s = (s, (false, 0))) := by
  constructor
  · intro rm s h
    unfold updateFileReferences subAssetRefs
    rw [subAssetRefsF_no_cdn rm s.data.length s.data h, strMk_data]
    simp
  · intro pm s h
    unfold updateFileImage
    rw [updateImageRefs_no_cdn pm s.data h]
    simp only [strMk_data]
    simp

/-- Claim C4 amended witness: a mailto and an https reference without the
`/cdn-assets/` substring pass through both rewrite passes untouched. -/
theorem c4_external_links_preserved_witness :
    (containsSub "/cdn-assets/".data
        ("<a href=\"mailto:hi@example.com\">Hi</a>" : String).data = false
      ∧ updateFileReferences c4Rm "<a href=\"mailto:hi@example.com\">Hi</a>"
        = ("<a href=\"mailto:hi@example.com\">Hi</a>", false))
    ∧ (containsSubCI "/cdn-assets/".data
        ("<img src=\"https://example.com/pic.png\">" : String).data = false
      ∧ updateFileImage c4Rm "<img src=\"https://example.com/pic.png\">"
        = ("<img src=\"https://example.com/pic.png\">", (false, 0))) :=
  ⟨⟨by decide,
    c4_external_links_preserved.1 c4Rm
      "<a href=\"mailto:hi@example.com\">Hi</a>" (by decide)⟩,
   ⟨by decide,
    c4_external_links_preserved.2 c4Rm
      "<img src=\"https://example.com/pic.png\">" (by decide)⟩⟩

/-! ## Claim C5: exact textual replacement -/

/-- An `image-mapping.json` with one (respectively two) migrated images. -/
def c5Pm1 : List (String × String) :=
  loadMapping [("/cdn-assets/x.png", "/cdn-assets/images/x-new.png")]

/-- Two-image variant used to show the separator normalization. -/
def c5Pm2 : List (String × String) :=
  loadMapping [("/cdn-assets/x.png", "/cdn-assets/images/x-new.png"),
               ("/cdn-assets/y.jpg", "/cdn-assets/images/y-new.jpg")]

/-- Claim C5 counterexample.  Rewriting a single-quoted srcset attribute
does not only replace the matched path substring: the handler re-emits the
whole attribute with double quotes and normalized separators, so bytes
outside the matched path (the quotes, and spacing of the untouched second
part) change. -/
theorem c5_srcset_not_exact :
    updateFileImage c5Pm1 "srcset='/cdn-assets/x.png 1x,/cdn-assets/z.png 2x'"
      = ("srcset=\"/cdn-assets/images/x-new.png 1x, /cdn-assets/z.png 2x\"",
         (true, 1))
    ∧ (updateFileImage c5Pm1
        "srcset='/cdn-assets/x.png 1x,/cdn-assets/z.png 2x'").1
      ≠ "srcset='/cdn-assets/images/x-new.png 1x,/cdn-assets/z.png 2x'" := by
  exact ⟨by decide, by decide⟩

/-- Claim C5 amended.  A file whose content holds no rewritable reference
(no case-insensitive `/cdn-assets/` occurrence) is byte-identical with
zero updates, hence never written; a file is written back exactly when its
rewritten content differs; but a rewritten srcset attribute is
re-serialized — double quotes, `", "` separators, stripped parts — rather
than having only the matched path substrings replaced (shown on the
two-part srcset). -/
theorem c5_rewrite_frame :
    (∀ (pm : List (String × String)) (s : String),
      containsSubCI "/cdn-assets/".data s.data = false →
      updateFileImage pm s = (s, (false, 0)))
    ∧ (∀ (pm : List (String × String)) (s : String),
      ((updateFileImage pm s).2.1 = true ↔ (updateFileImage pm s).1 ≠ s))
    ∧ updateFileImage c5Pm2
        "srcset='/cdn-assets/x.png 1x , /cdn-assets/y.jpg 2x'"
      = ("srcset=\"/cdn-assets/images/x-new.png 1x, /cdn-assets/images/y-new.jpg 2x\"",
         (true, 2)) := by
  refine ⟨?_, ?_, by decide⟩
  · intro pm s h
    unfold updateFileImage
    rw [updateImageRefs_no_cdn pm s.data h]
    simp only [strMk_data]
    simp
  · intro pm s
    unfold updateFileImage
    simp

/-- Claim C5 amended witness: a file with no reference at all is untouched
and unwritten. -/
theorem c5_rewrite_frame_witness :
    containsSubCI "/cdn-assets/".data
        ("<h1>Title</h1> plain body" : String).data = false
    ∧ updateFileImage c5Pm1 "<h1>Title</h1> plain body"
      = ("<h1>Title</h1> plain body", (false, 0)) :=
  ⟨by decide,
   c5_rewrite_frame.1 c5Pm1 "<h1>Title</h1> plain body" (by decide)⟩

/-! ## Claim C10: empty-directory cleanup

Order lemmas for `pathLe`, so that `sorted(..., reverse=True)` is known to
process every directory before its ancestors. -/

theorem pathLe_total : ∀ a b : MPath, pathLe a b = true ∨ pathLe b a = true
  | [], _ => Or.inl rfl
  | _ :: _, [] => Or.inr rfl
  | x :: xs, y :: ys => by
    by_cases hxy : x = y
    · subst hxy
      simp only [pathLe, if_pos rfl]
      exact pathLe_total xs ys
    · rcases lt_or_gt_of_ne hxy with h | h
      · exact Or.inl (by simp [pathLe, hxy, h])
      · have hyx : ¬y = x := fun hh => hxy hh.symm
        exact Or.inr (by simp [pathLe, hyx, h])

theorem pathLe_trans : ∀ a b c : MPath,
    pathLe a b = true → pathLe b c = true → pathLe a c = true
  | [], _, _, _, _ => rfl
  | _ :: _, [], _, h, _ => by simp [pathLe] at h
  | _ :: _, _ :: _, [], _, h => by simp [pathLe] at h
  | x :: xs, y :: ys, z :: zs, h1, h2 => by
    by_cases hxy : x = y <;> by_cases hyz : y = z
    · subst hxy
      subst hyz
      simp only [pathLe, if_pos rfl] at h1 h2 ⊢
      exact pathLe_trans xs ys zs h1 h2
    · subst hxy
      simp only [pathLe, if_pos rfl] at h1
      simp only [pathLe, if_neg hyz] at h2 ⊢
      exact h2
    · subst hyz
      simp only [pathLe, if_neg hxy] at h1 ⊢
      exact h1
    · simp only [pathLe, if_neg hxy] at h1
      simp only [pathLe, if_neg hyz] at h2
      have hlt : x < z := lt_trans (of_decide_eq_true h1)
        (of_decide_eq_true h2)
      have hxz : ¬x = z := ne_of_lt hlt
      simp [pathLe, hxz, hlt]

/-- A strict ancestor sorts strictly earlier: `pathLe b a` fails when `a`
is a proper prefix of `b`. -/
theorem pathLe_strict_ancestor : ∀ (a b : MPath), a <+: b → a ≠ b →
    pathLe b a = false
  | [], b, _, hne => by
    cases b with
    | nil => exact absurd rfl hne
    | cons y ys => rfl
  | x :: xs, b, hpre, hne => by
    rcases hpre with ⟨t, ht⟩
    cases b with
    | nil => cases ht
    | cons y ys =>
      have hx : x = y := by
        have := congrArg (fun l => l.headD x) ht
        simpa using this
      subst hx
      have hys : xs ++ t = ys := by
        have := congrArg List.tail ht
        simpa using this
      simp only [pathLe, if_pos rfl]
      refine pathLe_strict_ancestor xs ys ⟨t, hys⟩ ?_
      intro hh
      exact hne (by rw [hh])

/-- `revSortPaths` processes every directory before its proper
ancestors. -/
theorem revSortPaths_anc (l : List MPath) :
    List.Pairwise (fun a b => ¬(a <+: b ∧ a ≠ b)) (revSortPaths l) := by
  unfold revSortPaths
  rw [List.pairwise_reverse]
  have hs := @List.sorted_mergeSort MPath (fun a b => pathLe a b)
    (fun a b c => pathLe_trans a b c)
    (fun a b => by
      rcases pathLe_total a b with h | h <;> simp [h]) l
  refine hs.imp ?_
  intro a b hab ⟨hpre, hne⟩
  rw [pathLe_strict_ancestor b a hpre hne] at hab
  cases hab

theorem revSortPaths_perm (l : List MPath) : (revSortPaths l).Perm l := by
  unfold revSortPaths
  exact (List.reverse_perm _).trans (List.mergeSort_perm l _)

/-- A directory has some file strictly below it. -/
def hasFileBelow (files : List MPath) (d : MPath) : Bool :=
  files.any (fun f => List.isPrefixOf d f && !(d == f))

theorem hasFileBelow_iff {files : List MPath} {d : MPath} :
    hasFileBelow files d = true ↔ ∃ f ∈ files, d <+: f ∧ d ≠ f := by
  unfold hasFileBelow
  rw [List.any_eq_true]
  constructor
  · rintro ⟨f, hf, hcond⟩
    rw [Bool.and_eq_true, List.isPrefixOf_iff_prefix] at hcond
    refine ⟨f, hf, hcond.1, ?_⟩
    have := hcond.2
    simp only [Bool.not_eq_true', beq_eq_false_iff_ne, ne_eq] at this
    exact this
  · rintro ⟨f, hf, hpre, hne⟩
    refine ⟨f, hf, ?_⟩
    rw [Bool.and_eq_true, List.isPrefixOf_iff_prefix]
    refine ⟨hpre, ?_⟩
    simp [hne]

theorem strict_prefix_length {d f : List String} (h : d <+: f)
    (hne : d ≠ f) : d.length < f.length := by
  rcases lt_or_eq_of_le h.length_le with h1 | h1
  · exact h1
  · exact absurd (h.eq_of_length h1) hne

theorem take_of_isPre {d f : List String} (h : d <+: f) :
    f.take d.length = d :=
  (List.prefix_iff_eq_take.mp h).symm

/-- A nonempty path whose `dropLast` is `d` is a strict extension of
`d`. -/
theorem child_extends {c d : MPath} (hc : c ≠ []) (h : c.dropLast = d) :
    d <+: c ∧ d ≠ c := by
  have hrec : d ++ [c.getLast hc] = c := by
    rw [← h]
    exact List.dropLast_append_getLast hc
  constructor
  · exact ⟨[c.getLast hc], hrec⟩
  · intro hh
    have hlen := congrArg List.length hrec
    simp only [List.length_append, List.length_singleton] at hlen
    rw [hh] at hlen
    omega

/-- The invariant fold of the cleanup loop: after processing `done`, the
surviving directories are those not yet processed or with a file below;
running the rest of the order completes the filter. -/
theorem cleanupFold (files dirs : List MPath)
    (hdnodup : dirs.Nodup)
    (hne : ∀ d ∈ dirs, d ≠ [])
    (hclosed : ∀ f ∈ files, ∀ k, 0 < k → k < f.length → f.take k ∈ dirs) :
    ∀ (todo done : List MPath) (init : List MPath),
    (∀ x, x ∈ done ++ todo ↔ x ∈ dirs) →
    (done ++ todo).Nodup →
    List.Pairwise (fun a b => ¬(a <+: b ∧ a ≠ b)) (done ++ todo) →
    init = dirs.filter
      (fun x => !(decide (x ∈ done)) || hasFileBelow files x) →
    todo.foldl (cleanupStep files) init
      = dirs.filter (fun x => hasFileBelow files x)
  | [], done, init, hmem, _, _, hinit => by
    simp only [List.foldl_nil, hinit]
    refine List.filter_congr ?_
    intro x hx
    have hxdone : x ∈ done := by
      have := (hmem x).mpr hx
      simpa using this
    simp [hxdone]
  | d :: rest, done, init, hmem, hnodup, hpw, hinit => by
    simp only [List.foldl_cons]
    have hddirs : d ∈ dirs := (hmem d).mp (by simp)
    have hdnotdone : d ∉ done := by
      intro hd
      exact (List.nodup_append.mp hnodup).2.2 hd (List.mem_cons_self d rest)
    have hPd : (!(decide (d ∈ done)) || hasFileBelow files d) = true := by
      simp [hdnotdone]
    have hdinR : d ∈ init := by
      rw [hinit]
      exact List.mem_filter.mpr ⟨hddirs, hPd⟩
    have hcontR : init.contains d = true := List.elem_iff.mpr hdinR
    have hshift : ∀ (hgd : hasFileBelow files d = true), init
        = dirs.filter (fun x => !(decide (x ∈ done ++ [d]))
            || hasFileBelow files x) := by
      intro hgd
      rw [hinit]
      refine List.filter_congr ?_
      intro x hx
      by_cases hxd : x = d
      · subst hxd
        simp [hgd]
      · simp [List.mem_append, hxd]
    cases hgood : hasFileBelow files d with
    | true =>
      obtain ⟨f, hf, hpre, hnef⟩ := hasFileBelow_iff.mp hgood
      have hlen := strict_prefix_length hpre hnef
      have hblocker : dirIsEmpty files init d = false := by
        unfold dirIsEmpty
        by_cases hflen : f.length = d.length + 1
        · have hdl : f.dropLast = d := by
            rw [List.dropLast_eq_take, hflen]
            simpa using take_of_isPre hpre
          have hany : files.any (fun g => g.dropLast == d) = true :=
            List.any_eq_true.mpr ⟨f, hf, by simp [hdl]⟩
          simp [hany]
        · have hlt : d.length + 1 < f.length := by omega
          have hcdirs : f.take (d.length + 1) ∈ dirs :=
            hclosed f hf (d.length + 1) (by omega) hlt
          have hcpre : f.take (d.length + 1) <+: f := List.take_prefix _ _
          have hclen : (f.take (d.length + 1)).length = d.length + 1 := by
            rw [List.length_take]
            omega
          have hcnef : f.take (d.length + 1) ≠ f := by
            intro hh
            rw [hh] at hclen
            omega
          have hcgood : hasFileBelow files (f.take (d.length + 1)) = true :=
            hasFileBelow_iff.mpr ⟨f, hf, hcpre, hcnef⟩
          have hcinR : f.take (d.length + 1) ∈ init := by
            rw [hinit]
            exact List.mem_filter.mpr ⟨hcdirs, by simp [hcgood]⟩
          have hcd : ¬(f.take (d.length + 1) = d) := by
            intro hh
            have := congrArg List.length hh
            rw [hclen] at this
            omega
          have hcdrop : (f.take (d.length + 1)).dropLast = d := by
            rw [List.dropLast_eq_take, hclen]
            simp only [Nat.add_sub_cancel, List.take_take]
            rw [show d.length ⊓ (d.length + 1) = d.length from by omega]
            exact take_of_isPre hpre
          have hany2 : init.any
              (fun d2 => !(d2 == d) && d2.dropLast == d) = true :=
            List.any_eq_true.mpr ⟨f.take (d.length + 1), hcinR,
              by simp [hcdrop, hcd]⟩
          simp [hany2]
      have hstep : cleanupStep files init d = init := by
        simp only [cleanupStep, hcontR, if_true, hblocker,
          Bool.false_eq_true, if_false]
      rw [hstep]
      refine cleanupFold files dirs hdnodup hne hclosed rest (done ++ [d])
        init ?_ ?_ ?_ (hshift hgood)
      · intro x
        rw [← hmem x]
        simp [List.mem_append, or_assoc]
      · have : done ++ [d] ++ rest = done ++ d :: rest := by simp
        rw [this]
        exact hnodup
      · have : done ++ [d] ++ rest = done ++ d :: rest := by simp
        rw [this]
        exact hpw
    | false =>
      have hempty : dirIsEmpty files init d = true := by
        unfold dirIsEmpty
        have h1 : files.any (fun g => g.dropLast == d) = false := by
          rw [List.any_eq_false]
          intro f hf hcon
          simp only [beq_iff_eq] at hcon
          have hfne : f ≠ [] := by
            intro hfn
            rw [hfn] at hcon
            exact hne d hddirs (by simpa using hcon.symm)
          have hext := child_extends hfne hcon
          exact absurd (hasFileBelow_iff.mpr ⟨f, hf, hext.1, hext.2⟩)
            (by simp [hgood])
        have h2 : init.any (fun d2 => !(d2 == d) && d2.dropLast == d)
            = false := by
          rw [List.any_eq_false]
          intro d2 hd2 hcon
          rw [Bool.and_eq_true] at hcon
          have hd2d : d2 ≠ d := by
            have := hcon.1
            simp only [Bool.not_eq_true', beq_eq_false_iff_ne, ne_eq]
              at this
            exact this
          have hd2drop : d2.dropLast = d := by
            have := hcon.2
            simpa using this
          rw [hinit] at hd2
          obtain ⟨hd2dirs, hPd2⟩ := List.mem_filter.mp hd2
          have hd2ne : d2 ≠ [] := hne d2 hd2dirs
          have hext := child_extends hd2ne hd2drop
          by_cases hd2done : d2 ∈ done
          · have hgd2 : hasFileBelow files d2 = true := by
              simpa [hd2done] using hPd2
            obtain ⟨f, hf, hpref, hneff⟩ := hasFileBelow_iff.mp hgd2
            have hdf : d <+: f := hext.1.trans hpref
            have hdneq : d ≠ f := by
              intro hh
              have l1 := strict_prefix_length hext.1 hext.2
              have l2 := strict_prefix_length hpref hneff
              rw [hh] at l1
              omega
            exact absurd (hasFileBelow_iff.mpr ⟨f, hf, hdf, hdneq⟩)
              (by simp [hgood])
          · have hd2mem : d2 ∈ done ++ d :: rest := (hmem d2).mpr hd2dirs
            have hd2rest : d2 ∈ rest := by
              rcases List.mem_append.mp hd2mem with hmem1 | hmem2
              · exact absurd hmem1 hd2done
              · rcases List.mem_cons.mp hmem2 with heq | hmem3
                · exact absurd heq hd2d
                · exact hmem3
            have hpwd : ∀ b ∈ rest, ¬(d <+: b ∧ d ≠ b) := by
              have hp2 := (List.pairwise_append.mp hpw).2.1
              exact (List.pairwise_cons.mp hp2).1
            exact hpwd d2 hd2rest ⟨hext.1, fun hh => hd2d hh.symm⟩
        simp [dirIsEmpty, h1, h2]
      have hstep : cleanupStep files init d = init.erase d := by
        simp only [cleanupStep, hcontR, if_true, hempty]
      rw [hstep]
      have hRnodup : init.Nodup := by
        rw [hinit]
        exact hdnodup.filter _
      have herase : init.erase d = dirs.filter
          (fun x => !(decide (x ∈ done ++ [d]))
            || hasFileBelow files x) := by
        rw [hRnodup.erase_eq_filter, hinit, List.filter_filter]
        refine List.filter_congr ?_
        intro x hx
        by_cases hxd : x = d
        · subst hxd
          simp [hgood]
        · simp [List.mem_append, hxd]
      refine cleanupFold files dirs hdnodup hne hclosed rest (done ++ [d])
        (init.erase d) ?_ ?_ ?_ herase
      · intro x
        rw [← hmem x]
        simp [List.mem_append, or_assoc]
      · have : done ++ [d] ++ rest = done ++ d :: rest := by simp
        rw [this]
        exact hnodup
      · have : done ++ [d] ++ rest = done ++ d :: rest := by simp
        rw [this]
        exact hpw

/-- Claim C10.  On a live run of `migrate_files`, after the move pass the
cleanup loop removes exactly the directories with no file anywhere below
them — including directories unrelated to the mapping that were already
empty before the run, and including chains of nested empty directories —
and never touches `public/` itself (the root is not part of the `rglob`
listing).  Hypotheses: the directory listing is duplicate-free, lists only
proper descendants of the root, and contains every ancestor of every
file. -/
theorem c10_cleanup_removes_empty_dirs :
    (∀ (m : List MigEntry) (st : MigState),
      (migrateFiles false m st).dirs
        = cleanupPass ((m.foldl (migrateStep false) st).files.map
            (fun f => f.1))
          (revSortPaths (m.foldl (migrateStep false) st).dirs)
          (m.foldl (migrateStep false) st).dirs)
    ∧ (∀ (files dirs : List MPath), dirs.Nodup →
        (∀ d ∈ dirs, d ≠ []) →
        (∀ f ∈ files, ∀ k, 0 < k → k < f.length → f.take k ∈ dirs) →
        cleanupPass files (revSortPaths dirs) dirs
          = dirs.filter (fun d => hasFileBelow files d)) := by
  constructor
  · intro m st
    simp [migrateFiles]
  · intro files dirs h1 h2 h3
    unfold cleanupPass
    refine cleanupFold files dirs h1 h2 h3 (revSortPaths dirs) [] dirs
      ?_ ?_ ?_ ?_
    · intro x
      simpa using (revSortPaths_perm dirs).mem_iff
    · simpa using ((revSortPaths_perm dirs).nodup_iff).mpr h1
    · simpa using revSortPaths_anc dirs
    · simp

/-- Claim C10 witness: a tree with one file under `a/b`, an unrelated
pre-empty directory `c`, and an empty chain `d/e/f`; cleanup keeps exactly
`a` and `a/b`. -/
theorem c10_cleanup_removes_empty_dirs_witness :
    ([["a"], ["a", "b"], ["c"], ["d"], ["d", "e"], ["d", "e", "f"]] :
        List MPath).Nodup
    ∧ (∀ d ∈ ([["a"], ["a", "b"], ["c"], ["d"], ["d", "e"],
        ["d", "e", "f"]] : List MPath), d ≠ [])
    ∧ (∀ f ∈ ([["a", "b", "file.png"]] : List MPath), ∀ k, 0 < k →
        k < f.length → f.take k ∈ ([["a"], ["a", "b"], ["c"], ["d"],
          ["d", "e"], ["d", "e", "f"]] : List MPath))
    ∧ cleanupPass [["a", "b", "file.png"]]
        (revSortPaths [["a"], ["a", "b"], ["c"], ["d"], ["d", "e"],
          ["d", "e", "f"]])
        [["a"], ["a", "b"], ["c"], ["d"], ["d", "e"], ["d", "e", "f"]]
      = [["a"], ["a", "b"]] := by
  refine ⟨by decide, by decide, ?_, ?_⟩
  · intro f hf k hk1 hk2
    simp only [List.mem_singleton] at hf
    subst hf
    have hk3 : k < 3 := by simpa using hk2
    interval_cases k <;> decide
  · rw [c10_cleanup_removes_empty_dirs.2 [["a", "b", "file.png"]]
      [["a"], ["a", "b"], ["c"], ["d"], ["d", "e"], ["d", "e", "f"]]
      (by decide) (by decide) ?_]
    · decide
    · intro f hf k hk1 hk2
      simp only [List.mem_singleton] at hf
      subst hf
      have hk3 : k < 3 := by simpa using hk2
      interval_cases k <;> decide

end Pipeline
